import Mathlib

/-!
The token ledger actions of `src/tokendapppub.cpp`, as a shallow embedding.

The contract's actions (`create`, `issue`, `reg`, `buy`, `sell`, `consume`,
`claim`, `transfer`, `destroy`) are functions over an explicit database state.

* 64-bit signed amounts are integers; arithmetic on them wraps (`wrap64`).
* A failed `eosio_assert` aborts the action: actions return `Except String _`,
  the error being the assertion's message; the database after an aborted action
  is the database before it (`commit`).
* The tables of the chain database are lists of rows, each stored under a scope
  and a primary key, as `db_store_i64` stores them. Who pays for the memory of
  a row is not recorded.
* What `tokendapppub.hpp` declares (the game engine `game_buy`, `game_sell`, ...,
  the record types) is not part of the sources at hand: the engine is a
  parameter (`Engine`) and the record types follow the specification.
-/

namespace tokendapppub

/-! Machine integers, symbols and assets, as eosiolib defines them
(`symbol.hpp`, `asset.hpp`). -/

abbrev account_name := Nat
abbrev symbol_name := Nat

/-- Two's complement reduction of an integer to the range of `int64_t`. -/
def wrap64 (x : Int) : Int := (x + 2 ^ 63) % 2 ^ 64 - 2 ^ 63

/-- The values of `int64_t`. -/
def is_int64 (x : Int) : Prop := -(2 ^ 63) ≤ x ∧ x < 2 ^ 63

instance (x : Int) : Decidable (is_int64 x) := by
  unfold is_int64; exact inferInstance

/-- The `do ... while (i < 7)` loop of `is_valid_symbol`: every remaining byte
must be zero. -/
def is_valid_symbol_rest : Nat → Nat → Nat → Bool
  | 0, _, _ => true
  | fuel + 1, sym, i =>
    let sym1 := sym >>> 8
    if sym1 &&& 0xff ≠ 0 then false
    else if i + 1 < 7 then is_valid_symbol_rest fuel sym1 (i + 1) else true

/-- The `for (i = 0; i < 7; ++i)` loop of `is_valid_symbol`. -/
def is_valid_symbol_loop : Nat → Nat → Nat → Bool
  | 0, _, _ => true
  | fuel + 1, sym, i =>
    if ¬ i < 7 then true
    else
      let c := sym &&& 0xff
      if ¬ (65 ≤ c ∧ c ≤ 90) then false
      else
        let sym1 := sym >>> 8
        if sym1 &&& 0xff = 0 then is_valid_symbol_rest 7 sym1 i
        else is_valid_symbol_loop fuel sym1 (i + 1)

/-- The function `is_valid_symbol(sym)`: one to seven capital letters, then only zero bytes. -/
def is_valid_symbol (sym : Nat) : Bool := is_valid_symbol_loop 8 (sym >>> 8) 0

/-- The loop of `string_to_symbol`: byte `i` of the text is or-ed in at bit `8*(1+i)`
when it is a capital letter, and skipped otherwise. -/
def string_to_symbol_loop : List Nat → Nat → Nat → Nat
  | [], _, result => result
  | c :: cs, i, result =>
    if c < 65 ∨ c > 90 then string_to_symbol_loop cs (i + 1) result
    else string_to_symbol_loop cs (i + 1) (result ||| (c <<< (8 * (1 + i))) % 2 ^ 64)

/-- The function `string_to_symbol(precision, str)` on a C string: the text ends at the
first zero byte. -/
def string_to_symbol (precision : Nat) (str : List Nat) : Nat :=
  string_to_symbol_loop (str.takeWhile (fun c => c ≠ 0)) 0 0 ||| precision

structure symbol_type where
  value : Nat
deriving DecidableEq

/-- The method `symbol_type::name()`. -/
def symbol_type.name (s : symbol_type) : symbol_name := s.value >>> 8

/-- The method `symbol_type::is_valid()`. -/
def symbol_type.is_valid (s : symbol_type) : Bool := is_valid_symbol s.value

structure asset where
  amount : Int
  symbol : symbol_type
deriving DecidableEq

/-- The constant `asset::max_amount`, that is `(1LL << 62) - 1`. -/
def max_amount : Int := 2 ^ 62 - 1

/-- The method `asset::is_amount_within_range()`. -/
def asset.is_amount_within_range (a : asset) : Bool :=
  decide (-max_amount ≤ a.amount) && decide (a.amount ≤ max_amount)

/-- The method `asset::is_valid()`. -/
def asset.is_valid (a : asset) : Bool :=
  a.is_amount_within_range && a.symbol.is_valid

/-- The call `eosio_assert(test, msg)`. -/
def eosio_assert (test : Bool) (msg : String) : Except String Unit :=
  if test then pure () else throw msg

/-- The constructor `asset(a, s)`, which asserts the range of the amount and
the validity of the symbol. -/
def asset.ctor (a : Int) (s : symbol_type) : Except String asset := do
  eosio_assert (asset.is_amount_within_range ⟨a, s⟩)
    "magnitude of asset amount must be less than 2^62"
  eosio_assert s.is_valid "invalid symbol name"
  pure ⟨a, s⟩

/-- The operator `asset::operator+=`. -/
def asset.add (a b : asset) : Except String asset := do
  eosio_assert (decide (b.symbol = a.symbol)) "attempt to add asset with different symbol"
  let amount := wrap64 (a.amount + b.amount)
  eosio_assert (decide (-max_amount ≤ amount)) "addition underflow"
  eosio_assert (decide (amount ≤ max_amount)) "addition overflow"
  pure { a with amount := amount }

/-- The operator `asset::operator-=` (and the binary `operator-`, which is defined by it). -/
def asset.sub (a b : asset) : Except String asset := do
  eosio_assert (decide (b.symbol = a.symbol)) "attempt to subtract asset with different symbol"
  let amount := wrap64 (a.amount - b.amount)
  eosio_assert (decide (-max_amount ≤ amount)) "subtraction underflow"
  eosio_assert (decide (amount ≤ max_amount)) "subtraction overflow"
  pure { a with amount := amount }

/-! Tables of the chain database -/

/-- One row of a table: the scope and primary key it is stored under, and the
record. -/
structure Row (α : Type) where
  scope : Nat
  pk : Nat
  val : α
deriving DecidableEq

abbrev Table (α : Type) := List (Row α)

/-- Whether a row is the one stored under `(scope, pk)`. -/
def Row.at {α : Type} (scope pk : Nat) (r : Row α) : Bool :=
  decide (r.scope = scope) && decide (r.pk = pk)

/-- The lookup `table(_self, scope).find(pk)`; `none` is the `end()` iterator. -/
def Table.find {α : Type} (t : Table α) (scope pk : Nat) : Option α :=
  (List.find? (Row.at scope pk) t).map Row.val

/-- Replace the record of the first row stored under `(scope, pk)`. -/
def Table.put {α : Type} : Table α → Nat → Nat → α → Table α
  | [], _, _, _ => []
  | r :: t, scope, pk, v =>
    if Row.at scope pk r then { r with val := v } :: t
    else r :: Table.put t scope pk v

/-- The call `table.erase(itr)` for the row stored under `(scope, pk)`. -/
def Table.erase {α : Type} (t : Table α) (scope pk : Nat) : Table α :=
  List.eraseP (Row.at scope pk) t

/-- The call `table.emplace(payer, ...)`: the database refuses a second row under the
same scope and primary key. -/
def Table.emplace {α : Type} (t : Table α) (scope pk : Nat) (v : α) :
    Except String (Table α) := do
  eosio_assert (t.find scope pk).isNone "primary key already exists"
  pure (t ++ [⟨scope, pk, v⟩])

/-- No two rows of the table are stored under the same scope and primary key. -/
def Table.wf {α : Type} (t : Table α) : Prop :=
  t.Pairwise (fun r r' => ¬ (r.scope = r'.scope ∧ r.pk = r'.pk))

instance {α : Type} (t : Table α) : Decidable t.wf := by
  unfold Table.wf; exact inferInstance

/-! Records, state, and what an action can see and send -/

/-- Modelled from the spec: `st_game` is declared in `tokendapppub.hpp`, which is
not among the sources; the fields are those of the specification's Game record
(section 3). Its amounts are taken to be `int64_t`, as every amount of
eosiolib is: they are held as integers and arithmetic on them wraps. -/
structure st_game where
  owner : account_name
  symbol : symbol_type
  base_stake : Int
  stake : Int
  deserved_option : Int
  base_option : Int
  base_fee_percent : Nat
  init_fee_percent : Nat
  lock_up_period : Nat
deriving DecidableEq

/-- Modelled from the spec: the Supply record (`stats` table of
`tokendapppub.hpp`), keyed by the name of its symbol. -/
structure currency_stats where
  supply : asset
  max_supply : asset
  issuer : account_name
deriving DecidableEq

/-- Modelled from the spec: the Balance record (`accounts` table of
`tokendapppub.hpp`, scoped by holder), keyed by the name of its symbol. -/
structure account where
  balance : asset
deriving DecidableEq

def currency_stats.primary_key (s : currency_stats) : Nat := s.supply.symbol.name

def account.primary_key (a : account) : Nat := a.balance.symbol.name

/-- The name `N(games)`, the key of the single row of a `tb_games` singleton. -/
def N_games : Nat := 7035937633859534848

/-- The contract's database: the `games` singletons (scoped by symbol name), the
`stats` tables (scoped by symbol name) and the `accounts` tables (scoped by
holder). -/
structure State where
  games : Table st_game
  stats : Table currency_stats
  accounts : Table account
deriving DecidableEq

/-- What an action sends out, in order. -/
inductive Sent where
  /-- the call `require_recipient(a)` -/
  | recipient (a : account_name)
  /-- the inline `eosio.token::transfer(from, to, quantity, memo)` -/
  | token_transfer (sender receiver : account_name) (quantity : asset) (memo : String)
  /-- the inline `receipt(from, type, in, out, fee)` -/
  | receipt (holder : account_name) (type : String) (input output fee : asset)
deriving DecidableEq

/-- The host's side of an action: the receiver `_self`, the accounts whose
authorization the action bears, and the accounts that exist. -/
structure Ctx where
  self : account_name
  has_auth : account_name → Bool
  is_account : account_name → Bool

/-- Modelled from the spec: the members that `tokendapppub.hpp` defines and the
sources at hand only call. By section 4.2 of the specification the engine
functions read and change the Game records only, so each takes the `games`
table and returns the new one with its result. `CORE_SYMBOL` is the reserve
currency's symbol, a constant of the build. -/
structure Engine where
  CORE_SYMBOL : symbol_type
  _string_to_symbol_name : List Nat → symbol_name
  game_buy : Table st_game → symbol_name → Int → Except String (asset × Table st_game)
  game_sell : Table st_game → symbol_name → Int →
    Except String ((asset × asset) × Table st_game)
  game_claim : Table st_game → symbol_name → Except String (asset × Table st_game)
  game_consume : Table st_game → symbol_name → Int → Except String (Table st_game)
  game_profit : Table st_game → symbol_name → Int → Except String (Table st_game)

abbrev Result := Except String (State × List Sent)

/-- The database once the action has run: an aborted action changes nothing. -/
def commit (s : State) (r : Result) : State :=
  match r with
  | .ok (s1, _) => s1
  | .error _ => s

/-- Whether the action ran to its end. -/
def succeeds (r : Result) : Bool :=
  match r with
  | .ok _ => true
  | .error _ => false

/-- The call `require_auth(a)`. -/
def require_auth (c : Ctx) (a : account_name) : Except String Unit :=
  eosio_assert (c.has_auth a) "missing required authority"

/-- The check `game_sgt.exists()` asserted with `msg`, then `game_sgt.get()`. -/
def games_get (games : Table st_game) (name : symbol_name) (msg : String) :
    Except String st_game :=
  match games.find name N_games with
  | none => throw msg
  | some game => pure game

/-- The debit all of `sell`, `consume` and `transfer` make on the row the
iterator points at: `modify(itr, payer, rt.balance -= quantity)`, then
`erase(itr)` when the balance left is zero. (`-=` keeps the symbol, hence the
primary key.) -/
def sub_balance (t : Table account) (owner : account_name) (key : symbol_name)
    (player : account) (quantity : asset) : Except String (Table account) := do
  let balance ← player.balance.sub quantity
  let t1 := t.put owner key ⟨balance⟩
  if balance.amount = 0 then pure (t1.erase owner key) else pure t1

/-- The credit all of `buy`, `claim` and `transfer` make: `find(key)`, then
`emplace` of a row holding `quantity` when there is none, else
`modify(itr, payer, rt.balance += quantity)`. -/
def add_balance (t : Table account) (owner : account_name) (key : symbol_name)
    (quantity : asset) : Except String (Table account) :=
  match t.find owner key with
  | none => t.emplace owner (account.primary_key ⟨quantity⟩) ⟨quantity⟩
  | some player => do
    let balance ← player.balance.add quantity
    pure (t.put owner key ⟨balance⟩)

/-! The actions -/

def create (c : Ctx) (s : State) (issuer : account_name) (maximum_supply : asset) :
    Result := do
  require_auth c issuer
  let sym := maximum_supply.symbol
  eosio_assert sym.is_valid "invalid symbol name"
  eosio_assert maximum_supply.is_valid "invalid supply"
  eosio_assert (decide (maximum_supply.amount > 0)) "max-supply must be positive"
  let game ← games_get s.games sym.name "game not found by this symbol name"
  eosio_assert (decide (game.owner = issuer)) "issuer is not the owner of this token"
  eosio_assert
    (decide (wrap64 (wrap64 (game.base_stake - game.deserved_option) + game.base_option)
      = maximum_supply.amount))
    "invalid maximum supply"
  eosio_assert (s.stats.find sym.name sym.name).isNone "token with symbol already exists"
  let row : currency_stats :=
    { supply := ⟨0, maximum_supply.symbol⟩, max_supply := maximum_supply, issuer := issuer }
  let stats ← s.stats.emplace sym.name row.primary_key row
  pure ({ s with stats := stats }, [])

def issue (c : Ctx) (s : State) (to_ : account_name) (quantity : asset) (memo : List Nat) :
    Result := do
  let _ := to_
  let sym := quantity.symbol
  eosio_assert sym.is_valid "invalid symbol name"
  eosio_assert (decide (memo.length ≤ 256)) "memo has more than 256 bytes"
  let sym_name := sym.name
  match s.stats.find sym_name sym_name with
  | none => throw "token with symbol does not exist, create token before issue"
  | some st =>
    require_auth c st.issuer
    eosio_assert quantity.is_valid "invalid quantity"
    eosio_assert (decide (quantity.amount > 0)) "must issue positive quantity"
    eosio_assert (decide (quantity.symbol = st.supply.symbol)) "symbol precision mismatch"
    eosio_assert
      (decide (quantity.amount ≤ wrap64 (st.max_supply.amount - st.supply.amount)))
      "quantity exceeds available supply"
    let supply ← st.supply.add quantity
    pure ({ s with stats := s.stats.put sym_name sym_name { st with supply := supply } }, [])

def reg (c : Ctx) (s : State) (from_ : account_name) (memo : List Nat) : Result := do
  require_auth c from_
  eosio_assert (decide (memo.length ≤ 7)) "invalid memo format"
  let name := string_to_symbol 0 memo >>> 8
  let game ← games_get s.games name "token not found by this symbol name"
  match s.accounts.find from_ name with
  | none =>
    let balance ← asset.ctor 0 game.symbol
    let accounts ← s.accounts.emplace from_ (account.primary_key ⟨balance⟩) ⟨balance⟩
    pure ({ s with accounts := accounts }, [])
  | some _ => pure (s, [])

/-- The bytes of `"profit"`. -/
def profit_bytes : List Nat := [112, 114, 111, 102, 105, 116]

def buy (E : Engine) (c : Ctx) (s : State) (from_ to_ : account_name) (quantity : asset)
    (memo : List Nat) : Result := do
  if from_ = c.self ∨ to_ ≠ c.self then
    pure (s, [])
  else
    eosio_assert (decide (quantity.symbol = E.CORE_SYMBOL)) "must pay with CORE token"
    if 45 ∈ memo then
      let first_separator_pos := memo.indexOf 45
      let name_str := memo.take first_separator_pos
      eosio_assert (decide (name_str.length ≤ 7)) "invalid symbol name"
      let name := string_to_symbol 0 name_str >>> 8
      let profit_str := memo.drop (first_separator_pos + 1)
      eosio_assert (decide (profit_str = profit_bytes)) "invalid memo format for profit"
      let games ← E.game_profit s.games name quantity.amount
      pure ({ s with games := games }, [])
    else
      eosio_assert (decide (memo.length ≤ 7)) "invalid memo format"
      let name := string_to_symbol 0 memo >>> 8
      let (stake_quantity, games) ← E.game_buy s.games name quantity.amount
      let accounts ← add_balance s.accounts from_ name stake_quantity
      let fee ← asset.ctor 0 E.CORE_SYMBOL
      pure ({ s with games := games, accounts := accounts },
        [Sent.receipt from_ "buy" quantity stake_quantity fee])

def sell (E : Engine) (c : Ctx) (s : State) (from_ : account_name) (quantity : asset) :
    Result := do
  require_auth c from_
  match s.accounts.find from_ quantity.symbol.name with
  | none => throw "account not found"
  | some player =>
    eosio_assert (decide (quantity.symbol = player.balance.symbol)) "symbol precision mismatch"
    eosio_assert
      (decide (quantity.amount > 0) && decide (quantity.amount ≤ player.balance.amount))
      "invalid amount"
    let ((eos_quantity, all_quantity), games) ←
      E.game_sell s.games quantity.symbol.name quantity.amount
    eosio_assert (decide (eos_quantity.amount > 0)) "selled eos amount should be greater than 0"
    let accounts ← sub_balance s.accounts from_ quantity.symbol.name player quantity
    let fee ← all_quantity.sub eos_quantity
    pure ({ s with games := games, accounts := accounts },
      [Sent.token_transfer c.self from_ eos_quantity "tokendapppub withdraw https://dapp.pub",
       Sent.receipt from_ "sell" quantity all_quantity fee])

def consume (E : Engine) (c : Ctx) (s : State) (from_ : account_name) (quantity : asset)
    (memo : List Nat) : Result := do
  let _ := memo
  require_auth c from_
  match s.accounts.find from_ quantity.symbol.name with
  | none => throw "player not found"
  | some player =>
    eosio_assert
      (decide (quantity.amount > 0) && decide (quantity.amount ≤ player.balance.amount))
      "not enough balance to consume"
    eosio_assert (decide (quantity.symbol = player.balance.symbol)) "symbol precision mismatch"
    let games ← E.game_consume s.games quantity.symbol.name quantity.amount
    let accounts ← sub_balance s.accounts from_ quantity.symbol.name player quantity
    pure ({ s with games := games, accounts := accounts }, [])

def claim (E : Engine) (c : Ctx) (s : State) (name_str : List Nat) (sell_flag : Bool) :
    Result := do
  let name := E._string_to_symbol_name name_str
  let game ← games_get s.games name "token not found by this symbol_name"
  require_auth c game.owner
  let (stake_quantity, games) ← E.game_claim s.games name
  let accounts ← add_balance s.accounts game.owner name stake_quantity
  let s1 : State := { s with games := games, accounts := accounts }
  if sell_flag then
    match s1.accounts.find game.owner name with
    | none => throw "WTF!"
    | some player => sell E c s1 game.owner player.balance
  else
    pure (s1, [])

def transfer (c : Ctx) (s : State) (from_ to_ : account_name) (quantity : asset)
    (memo : List Nat) : Result := do
  eosio_assert (decide (from_ ≠ to_)) "cannot transfer to self"
  require_auth c from_
  eosio_assert (c.is_account to_) "to account does not exist"
  let sym := quantity.symbol.name
  let game ← games_get s.games sym "game not found by this symbol name"
  eosio_assert quantity.is_valid "invalid quantity"
  eosio_assert (decide (quantity.amount > 0)) "must transfer positive quantity"
  eosio_assert (decide (quantity.symbol = game.symbol)) "symbol precision mismatch"
  eosio_assert (decide (memo.length ≤ 256)) "memo has more than 256 bytes"
  match s.accounts.find from_ quantity.symbol.name with
  | none => throw "no balance object found by from account"
  | some player =>
    eosio_assert (decide (player.balance.amount ≥ quantity.amount)) "overdrawn balance"
    let accounts1 ← sub_balance s.accounts from_ quantity.symbol.name player quantity
    let accounts2 ← add_balance accounts1 to_ quantity.symbol.name quantity
    pure ({ s with accounts := accounts2 }, [Sent.recipient from_, Sent.recipient to_])

def destroy (E : Engine) (c : Ctx) (s : State) (name_str : List Nat) : Result := do
  let name := E._string_to_symbol_name name_str
  let game ← games_get s.games name "token not found by this symbol_name"
  require_auth c game.owner
  eosio_assert (decide (game.base_stake = game.stake))
    "all stake should be retrieved before erasing game"
  let games := s.games.erase name N_games
  match s.stats.find name name with
  | none => throw "token with symbol do not exists"
  | some _ => pure ({ s with games := games, stats := s.stats.erase name name }, [])

/-! Reading the ledger -/

/-- The amount a holder has of a symbol: that of the Balance record, and zero
when there is none. -/
def balance_of (s : State) (holder : account_name) (name : symbol_name) : Int :=
  match s.accounts.find holder name with
  | none => 0
  | some a => a.balance.amount

/-- The sum of the amounts of all Balance records stored under a symbol name. -/
def balance_sum (t : Table account) (name : symbol_name) : Int :=
  ((t.filter (fun r => decide (r.pk = name))).map (fun r => r.val.balance.amount)).sum

/-- Every stored balance is a value of `int64_t`. -/
def accounts_int64 (t : Table account) : Prop :=
  ∀ r ∈ t, is_int64 r.val.balance.amount

instance (t : Table account) : Decidable (accounts_int64 t) := by
  unfold accounts_int64; exact inferInstance

/-- What C5 asks of the record of `holder` under `name` after a debit of
`amount`: gone when the balance left is zero, and holding the balance left when
that is positive. -/
def cleaned_up (s s1 : State) (holder : account_name) (name : symbol_name) (amount : Int) :
    Prop :=
  (balance_of s holder name - amount = 0 → Table.find s1.accounts holder name = none) ∧
  (balance_of s holder name - amount > 0 →
    ∃ a, Table.find s.accounts holder name = some a ∧
      Table.find s1.accounts holder name
        = some ⟨⟨a.balance.amount - amount, a.balance.symbol⟩⟩)

/-! Concrete data for the examples: the token `4,GAME`, its owner (account 1),
a second holder (account 2), and the contract (account 100). -/

/-- The symbol `4,GAME`. -/
def GAME4 : symbol_type := ⟨297648867076⟩

/-- The symbol `2,GAME`: the same name with another precision. -/
def GAME2 : symbol_type := ⟨297648867074⟩

/-- The symbol `4,EOS`. -/
def EOS4 : symbol_type := ⟨1397703940⟩

/-- The symbol name `GAME`. -/
def GAME : symbol_name := 1162690887

/-- The bytes of `"GAME"`. -/
def GAME_str : List Nat := [71, 65, 77, 69]

/-- An action of the contract (account 100) that bears the authorization of
account 1, every account existing. -/
def ctx_owner : Ctx := ⟨100, fun a => a == 1, fun _ => true⟩

/-- An engine for the examples: it trades one for one and leaves the Game
records as they are. -/
def engine_par : Engine where
  CORE_SYMBOL := EOS4
  _string_to_symbol_name := fun str => string_to_symbol 0 str >>> 8
  game_buy := fun games _ amount => .ok (⟨amount, GAME4⟩, games)
  game_sell := fun games _ amount => .ok ((⟨amount, EOS4⟩, ⟨amount, EOS4⟩), games)
  game_claim := fun games _ => .ok (⟨0, GAME4⟩, games)
  game_consume := fun games _ _ => .ok games
  game_profit := fun games _ _ => .ok games

/-- The Game of `4,GAME`, owned by account 1, with nothing at stake. -/
def game_GAME : st_game := ⟨1, GAME4, 1000000, 1000000, 0, 0, 2, 2, 10⟩

/-- The Supply record `create` writes for `1000000 GAME`. -/
def stats_created : currency_stats := ⟨⟨0, GAME4⟩, ⟨1000000, GAME4⟩, 1⟩

/-- The Supply record once all of `1000000 GAME` is issued. -/
def stats_issued : currency_stats := ⟨⟨1000000, GAME4⟩, ⟨1000000, GAME4⟩, 1⟩

/-- A database with the Game of `GAME` and nothing else. -/
def state_game_only : State := ⟨[⟨GAME, N_games, game_GAME⟩], [], []⟩

/-- The database after `create(1, 1000000 GAME)`. -/
def state_created : State :=
  ⟨[⟨GAME, N_games, game_GAME⟩], [⟨GAME, GAME, stats_created⟩], []⟩

/-- The database after `issue(1, 1000000 GAME)`. -/
def state_issued : State :=
  ⟨[⟨GAME, N_games, game_GAME⟩], [⟨GAME, GAME, stats_issued⟩], []⟩

/-- A database where account 1 holds 50 and account 2 holds 30 of `GAME`. -/
def state_ledger : State :=
  ⟨[⟨GAME, N_games, game_GAME⟩], [⟨GAME, GAME, stats_issued⟩],
    [⟨1, GAME, ⟨⟨50, GAME4⟩⟩⟩, ⟨2, GAME, ⟨⟨30, GAME4⟩⟩⟩]⟩

/-- The ledger after account 1 has passed its 50 `GAME` to account 2. -/
def state_moved : State :=
  ⟨[⟨GAME, N_games, game_GAME⟩], [⟨GAME, GAME, stats_issued⟩],
    [⟨2, GAME, ⟨⟨80, GAME4⟩⟩⟩]⟩

/-- The ledger after account 1 has sold or consumed its 50 `GAME`. -/
def state_drained : State :=
  ⟨[⟨GAME, N_games, game_GAME⟩], [⟨GAME, GAME, stats_issued⟩],
    [⟨2, GAME, ⟨⟨30, GAME4⟩⟩⟩]⟩

/-- The ledger after `destroy("GAME")`. -/
def state_destroyed : State :=
  ⟨[], [], [⟨1, GAME, ⟨⟨50, GAME4⟩⟩⟩, ⟨2, GAME, ⟨⟨30, GAME4⟩⟩⟩]⟩

/-- The database after `reg(1, "GAME")` on `state_issued`. -/
def state_registered : State :=
  ⟨[⟨GAME, N_games, game_GAME⟩], [⟨GAME, GAME, stats_issued⟩],
    [⟨1, GAME, ⟨⟨0, GAME4⟩⟩⟩]⟩

/-- A database where `GAME` has been set up again with precision 2 while
account 1 still holds `50 GAME` of precision 4. -/
def state_dangling : State :=
  ⟨[⟨GAME, N_games, { game_GAME with symbol := GAME2 }⟩],
    [⟨GAME, GAME, ⟨⟨1000000, GAME2⟩, ⟨1000000, GAME2⟩, 1⟩⟩],
    [⟨1, GAME, ⟨⟨50, GAME4⟩⟩⟩]⟩

/-! Further definitions for the statements and examples -/

/-- The engine of the examples, with 10 `GAME` released by every `game_claim`. -/
def engine_vest : Engine :=
  { engine_par with game_claim := fun games _ => .ok (⟨10, GAME4⟩, games) }

/-- The ledger after the owner, account 1, has run a claim releasing 10 `GAME`
with the sell flag: its record is gone. -/
def state_claimed_sold : State :=
  ⟨[⟨GAME, N_games, game_GAME⟩], [⟨GAME, GAME, stats_issued⟩],
    [⟨2, GAME, ⟨⟨30, GAME4⟩⟩⟩]⟩

/-- The ledger after the owner, account 1, has run a claim releasing 10 `GAME`
without the sell flag. -/
def state_claimed : State :=
  ⟨[⟨GAME, N_games, game_GAME⟩], [⟨GAME, GAME, stats_issued⟩],
    [⟨1, GAME, ⟨⟨60, GAME4⟩⟩⟩, ⟨2, GAME, ⟨⟨30, GAME4⟩⟩⟩]⟩

/-- What an action has sent once it has run: an aborted action sends nothing. -/
def emitted (r : Result) : List Sent :=
  match r with
  | .ok (_, out) => out
  | .error _ => []

/-- Whether what was sent is the inline `receipt` action. -/
def Sent.is_receipt : Sent → Bool
  | .receipt _ _ _ _ _ => true
  | _ => false

/-- The database after account 1 has bought `50 GAME` on `state_issued`. -/
def state_bought : State :=
  ⟨[⟨GAME, N_games, game_GAME⟩], [⟨GAME, GAME, stats_issued⟩],
    [⟨1, GAME, ⟨⟨50, GAME4⟩⟩⟩]⟩

/-- The bytes of `"GAME-profit"`. -/
def GAME_profit_str : List Nat := [71, 65, 77, 69, 45, 112, 114, 111, 102, 105, 116]

/-- The bytes of `"A-B-profit"`. -/
def A_B_profit_str : List Nat := [65, 45, 66, 45, 112, 114, 111, 102, 105, 116]

/-- The bytes of `"A-"`. -/
def A_dash_str : List Nat := [65, 45]

/-- A Game of `4,GAME` whose amounts are values of `int64_t` outside the range
of assets: their sum is `2^64 + 100`, which 64-bit arithmetic takes for 100. -/
def game_wrapping : st_game :=
  ⟨1, GAME4, 9223372036854775807, 9223372036854775807, -9223372036854775807, 102, 2, 2, 10⟩

/-- A database with the Game `game_wrapping` and nothing else. -/
def state_wrapping : State := ⟨[⟨GAME, N_games, game_wrapping⟩], [], []⟩

/-! Lemmas: assertions and tables -/

/-! Assertions -/

theorem assert_bind_ok {α : Type} (b : Bool) (msg : String) (f : Unit → Except String α)
    (r : α) : (eosio_assert b msg >>= f) = .ok r ↔ b = true ∧ f () = .ok r := by
  cases b <;> simp [eosio_assert, bind, Except.bind, pure, Except.pure, throw, throwThe,
    MonadExceptOf.throw]

theorem assert_bind_false {α : Type} (msg : String) (f : Unit → Except String α) :
    (eosio_assert false msg >>= f) = .error msg := rfl

theorem assert_bind_true {α : Type} (msg : String) (f : Unit → Except String α) :
    (eosio_assert true msg >>= f) = f () := rfl

theorem succeeds_eq_false_iff (r : Result) : succeeds r = false ↔ ∃ e, r = .error e := by
  cases r <;> simp [succeeds]

theorem commit_error (s : State) (e : String) : commit s (.error e) = s := rfl

/-! Tables -/

theorem at_iff {α : Type} (scope pk : Nat) (r : Row α) :
    Row.at scope pk r = true ↔ r.scope = scope ∧ r.pk = pk := by
  simp [Row.at]

theorem find_nil {α : Type} (scope pk : Nat) : Table.find ([] : Table α) scope pk = none := rfl

theorem find_cons {α : Type} (r : Row α) (t : Table α) (scope pk : Nat) :
    Table.find (r :: t) scope pk = if Row.at scope pk r then some r.val else Table.find t scope pk := by
  by_cases h : Row.at scope pk r = true <;> simp [Table.find, List.find?, h]

theorem find_eq_none_iff {α : Type} (t : Table α) (scope pk : Nat) :
    Table.find t scope pk = none ↔ ∀ r ∈ t, Row.at scope pk r = false := by
  induction t with
  | nil => simp [find_nil]
  | cons r t ih =>
    rw [find_cons]
    by_cases h : Row.at scope pk r = true
    · simp [h]
    · simp [h, ih]

theorem find_put_same {α : Type} (t : Table α) (scope pk : Nat) (v : α)
    (h : (Table.find t scope pk).isSome) : Table.find (Table.put t scope pk v) scope pk = some v := by
  induction t with
  | nil => simp [find_nil] at h
  | cons r t ih =>
    by_cases hr : Row.at scope pk r = true
    · have hr2 : Row.at scope pk { r with val := v } = true := by simpa [Row.at] using hr
      simp [Table.put, hr, find_cons, hr2]
    · rw [find_cons] at h
      simp only [hr] at h
      simpa [Table.put, hr, find_cons] using ih h

theorem find_put_other {α : Type} (t : Table α) (scope pk scope1 pk1 : Nat) (v : α)
    (h : ¬ (scope1 = scope ∧ pk1 = pk)) :
    Table.find (Table.put t scope pk v) scope1 pk1 = Table.find t scope1 pk1 := by
  induction t with
  | nil => rfl
  | cons r t ih =>
    by_cases hr : Row.at scope pk r = true
    · have h1 : Row.at scope1 pk1 r = false := by
        rw [at_iff] at hr
        rw [Bool.eq_false_iff, Ne, at_iff]
        rintro ⟨a, b⟩
        exact h ⟨a ▸ hr.1 ▸ rfl, b ▸ hr.2 ▸ rfl⟩
      have h2 : Row.at scope1 pk1 { r with val := v } = false := by simpa [Row.at] using h1
      simp [Table.put, hr, find_cons, h1, h2]
    · simp [Table.put, hr, find_cons, ih]

theorem find_erase_other {α : Type} (t : Table α) (scope pk scope1 pk1 : Nat)
    (h : ¬ (scope1 = scope ∧ pk1 = pk)) :
    Table.find (Table.erase t scope pk) scope1 pk1 = Table.find t scope1 pk1 := by
  induction t with
  | nil => rfl
  | cons r t ih =>
    by_cases hr : Row.at scope pk r = true
    · have h1 : Row.at scope1 pk1 r = false := by
        rw [at_iff] at hr
        rw [Bool.eq_false_iff, Ne, at_iff]
        rintro ⟨a, b⟩
        exact h ⟨a ▸ hr.1 ▸ rfl, b ▸ hr.2 ▸ rfl⟩
      simp [Table.erase, List.eraseP_cons, hr, find_cons, h1]
    · have ih1 : Table.find (List.eraseP (Row.at scope pk) t) scope1 pk1 = Table.find t scope1 pk1 := ih
      simp [Table.erase, List.eraseP_cons, hr, find_cons, ih1]

theorem find_erase_same {α : Type} (t : Table α) (scope pk : Nat) (hwf : Table.wf t) :
    Table.find (Table.erase t scope pk) scope pk = none := by
  induction t with
  | nil => rfl
  | cons r t ih =>
    have hwf1 : Table.wf t := (List.pairwise_cons.1 hwf).2
    by_cases hr : Row.at scope pk r = true
    · have : Table.find t scope pk = none := by
        rw [find_eq_none_iff]
        intro r1 hr1
        have := (List.pairwise_cons.1 hwf).1 r1 hr1
        rw [at_iff] at hr
        rw [Bool.eq_false_iff, Ne, at_iff]
        rintro ⟨a, b⟩
        exact this ⟨hr.1.trans a.symm, hr.2.trans b.symm⟩
      simpa [Table.erase, List.eraseP_cons, hr] using this
    · have ih1 : Table.find (List.eraseP (Row.at scope pk) t) scope pk = none := ih hwf1
      simp [Table.erase, List.eraseP_cons, hr, find_cons, ih1]

theorem find_append_single {α : Type} (t : Table α) (scope pk scope1 pk1 : Nat) (v : α) :
    Table.find (t ++ [⟨scope, pk, v⟩]) scope1 pk1 =
      match Table.find t scope1 pk1 with
      | some a => some a
      | none => if scope = scope1 ∧ pk = pk1 then some v else none := by
  induction t with
  | nil =>
    by_cases h : scope = scope1 ∧ pk = pk1
    · simp [find_cons, find_nil, Row.at, h]
    · have : ¬ (scope = scope1 ∧ pk = pk1) := h
      simp only [List.nil_append, find_cons, find_nil, Row.at, h, if_false]
      simp only [Bool.and_eq_true, decide_eq_true_eq, this, if_false]
  | cons r t ih =>
    by_cases hr : Row.at scope1 pk1 r = true
    · simp [find_cons, hr]
    · simpa [find_cons, hr] using ih

theorem emplace_ok {α : Type} (t t1 : Table α) (scope pk : Nat) (v : α)
    (h : Table.emplace t scope pk v = .ok t1) :
    Table.find t scope pk = none ∧ t1 = t ++ [⟨scope, pk, v⟩] := by
  unfold Table.emplace at h
  simp only [assert_bind_ok, Option.isNone_iff_eq_none, pure, Except.pure, Except.ok.injEq] at h
  exact ⟨h.1, h.2.symm⟩

theorem emplace_of_none {α : Type} (t : Table α) (scope pk : Nat) (v : α)
    (h : Table.find t scope pk = none) :
    Table.emplace t scope pk v = .ok (t ++ [⟨scope, pk, v⟩]) := by
  simp [Table.emplace, h, assert_bind_true, pure, Except.pure]

theorem emplace_of_some {α : Type} (t : Table α) (scope pk : Nat) (v a : α)
    (h : Table.find t scope pk = some a) :
    Table.emplace t scope pk v = .error "primary key already exists" := by
  unfold Table.emplace
  rw [h]
  rfl

/-! Well-formedness is kept -/

theorem mem_put {α : Type} (t : Table α) (scope pk : Nat) (v : α) (r1 : Row α)
    (h : r1 ∈ Table.put t scope pk v) : ∃ r0 ∈ t, r0.scope = r1.scope ∧ r0.pk = r1.pk := by
  induction t with
  | nil => simp [Table.put] at h
  | cons a t ih =>
    unfold Table.put at h
    split at h
    · rcases List.mem_cons.1 h with e | m
      · exact ⟨a, List.mem_cons_self _ _, by rw [e], by rw [e]⟩
      · exact ⟨r1, List.mem_cons_of_mem _ m, rfl, rfl⟩
    · rcases List.mem_cons.1 h with e | m
      · exact ⟨a, List.mem_cons_self _ _, by rw [e], by rw [e]⟩
      · obtain ⟨r0, m0, e⟩ := ih m
        exact ⟨r0, List.mem_cons_of_mem _ m0, e⟩

theorem wf_put {α : Type} (t : Table α) (scope pk : Nat) (v : α) (hwf : Table.wf t) :
    Table.wf (Table.put t scope pk v) := by
  induction t with
  | nil => exact hwf
  | cons r t ih =>
    have h1 := List.pairwise_cons.1 hwf
    unfold Table.put
    split
    · exact List.pairwise_cons.2 ⟨h1.1, h1.2⟩
    · refine List.pairwise_cons.2 ⟨?_, ih h1.2⟩
      intro r1 hr1
      obtain ⟨r0, m, e1, e2⟩ := mem_put t scope pk v r1 hr1
      have := h1.1 r0 m
      rw [← e1, ← e2]
      exact this

theorem wf_erase {α : Type} (t : Table α) (scope pk : Nat) (hwf : Table.wf t) :
    Table.wf (Table.erase t scope pk) :=
  List.Pairwise.sublist (List.eraseP_sublist t) hwf

theorem wf_append_single {α : Type} (t : Table α) (scope pk : Nat) (v : α) (hwf : Table.wf t)
    (h : Table.find t scope pk = none) : Table.wf (t ++ [⟨scope, pk, v⟩]) := by
  unfold Table.wf
  rw [List.pairwise_append]
  refine ⟨hwf, List.pairwise_singleton _ _, ?_⟩
  intro a ha b hb
  rw [List.mem_singleton] at hb
  subst hb
  have := (find_eq_none_iff t scope pk).1 h a ha
  rw [Bool.eq_false_iff, Ne, at_iff] at this
  exact this

/-! Machine arithmetic of assets -/

theorem wrap64_of_int64 (x : Int) (h : is_int64 x) : wrap64 x = x := by
  unfold is_int64 at h
  unfold wrap64
  omega

theorem wrap64_add_exact (a q : Int) (ha : is_int64 a)
    (hq : -max_amount ≤ q ∧ q ≤ max_amount)
    (hr : -max_amount ≤ wrap64 (a + q) ∧ wrap64 (a + q) ≤ max_amount) :
    wrap64 (a + q) = a + q := by
  unfold is_int64 at ha
  unfold wrap64 max_amount at *
  omega

theorem asset_add_ok (a b r : asset) (h : a.add b = .ok r) :
    b.symbol = a.symbol ∧ r = ⟨wrap64 (a.amount + b.amount), a.symbol⟩ ∧
      -max_amount ≤ wrap64 (a.amount + b.amount) ∧ wrap64 (a.amount + b.amount) ≤ max_amount := by
  unfold asset.add at h
  simp only [assert_bind_ok, decide_eq_true_eq] at h
  obtain ⟨h1, h2, h3, h4⟩ := h
  simp only [pure, Except.pure, Except.ok.injEq] at h4
  exact ⟨h1, h4.symm, h2, h3⟩

theorem asset_sub_ok (a b r : asset) (h : a.sub b = .ok r) :
    b.symbol = a.symbol ∧ r = ⟨wrap64 (a.amount - b.amount), a.symbol⟩ ∧
      -max_amount ≤ wrap64 (a.amount - b.amount) ∧ wrap64 (a.amount - b.amount) ≤ max_amount := by
  unfold asset.sub at h
  simp only [assert_bind_ok, decide_eq_true_eq] at h
  obtain ⟨h1, h2, h3, h4⟩ := h
  simp only [pure, Except.pure, Except.ok.injEq] at h4
  exact ⟨h1, h4.symm, h2, h3⟩

theorem asset_add_of (a b : asset) (h1 : b.symbol = a.symbol)
    (h2 : -max_amount ≤ a.amount + b.amount) (h3 : a.amount + b.amount ≤ max_amount) :
    a.add b = .ok ⟨a.amount + b.amount, a.symbol⟩ := by
  have hw : wrap64 (a.amount + b.amount) = a.amount + b.amount := by
    apply wrap64_of_int64
    unfold is_int64
    unfold max_amount at h2 h3
    omega
  unfold asset.add
  simp only [h1, hw, h2, h3, decide_True, assert_bind_true]
  rfl

theorem asset_sub_of (a b : asset) (h1 : b.symbol = a.symbol)
    (h2 : -max_amount ≤ a.amount - b.amount) (h3 : a.amount - b.amount ≤ max_amount) :
    a.sub b = .ok ⟨a.amount - b.amount, a.symbol⟩ := by
  have hw : wrap64 (a.amount - b.amount) = a.amount - b.amount := by
    apply wrap64_of_int64
    unfold is_int64
    unfold max_amount at h2 h3
    omega
  unfold asset.sub
  simp only [h1, hw, h2, h3, decide_True, assert_bind_true]
  rfl

/-! Sums of balances -/

theorem sum_nil (name : symbol_name) : balance_sum [] name = 0 := rfl

theorem sum_cons (r : Row account) (t : Table account) (name : symbol_name) :
    balance_sum (r :: t) name =
      (if r.pk = name then r.val.balance.amount else 0) + balance_sum t name := by
  by_cases h : r.pk = name <;> simp [balance_sum, List.filter_cons, h]

theorem sum_append_single (t : Table account) (scope pk : Nat) (v : account)
    (name : symbol_name) :
    balance_sum (t ++ [⟨scope, pk, v⟩]) name =
      balance_sum t name + (if pk = name then v.balance.amount else 0) := by
  induction t with
  | nil => simp [sum_cons, sum_nil]
  | cons r t ih =>
    rw [List.cons_append, sum_cons, sum_cons, ih]
    ring

theorem sum_put (t : Table account) (scope pk : Nat) (v old : account) (name : symbol_name)
    (h : Table.find t scope pk = some old) :
    balance_sum (Table.put t scope pk v) name =
      balance_sum t name + (if pk = name then v.balance.amount - old.balance.amount else 0) := by
  induction t with
  | nil => simp [find_nil] at h
  | cons r t ih =>
    rw [find_cons] at h
    unfold Table.put
    split
    · rename_i hr
      rw [if_pos hr] at h
      have e : r.val = old := Option.some.inj h
      have hpk : r.pk = pk := ((at_iff _ _ _).1 hr).2
      rw [sum_cons, sum_cons]
      simp only [hpk, e]
      split <;> ring
    · rename_i hr
      rw [if_neg hr] at h
      rw [sum_cons, sum_cons, ih h]
      ring

theorem erase_cons_pos {α : Type} (r : Row α) (t : Table α) (scope pk : Nat)
    (h : Row.at scope pk r = true) : Table.erase (r :: t) scope pk = t := by
  simp [Table.erase, List.eraseP_cons, h]

theorem erase_cons_neg {α : Type} (r : Row α) (t : Table α) (scope pk : Nat)
    (h : ¬ Row.at scope pk r = true) :
    Table.erase (r :: t) scope pk = r :: Table.erase t scope pk := by
  simp [Table.erase, List.eraseP_cons, h]

theorem sum_erase (t : Table account) (scope pk : Nat) (old : account) (name : symbol_name)
    (h : Table.find t scope pk = some old) :
    balance_sum (Table.erase t scope pk) name =
      balance_sum t name - (if pk = name then old.balance.amount else 0) := by
  induction t with
  | nil => simp [find_nil] at h
  | cons r t ih =>
    rw [find_cons] at h
    by_cases hr : Row.at scope pk r = true
    · rw [if_pos hr] at h
      have e : r.val = old := Option.some.inj h
      have hpk : r.pk = pk := ((at_iff _ _ _).1 hr).2
      rw [erase_cons_pos r t scope pk hr, sum_cons]
      simp only [hpk, e]
      ring
    · rw [if_neg hr] at h
      rw [erase_cons_neg r t scope pk hr, sum_cons, sum_cons, ih h]
      ring

theorem bind_ok {α β : Type} (x : Except String α) (f : α → Except String β) (r : β) :
    (x >>= f) = .ok r ↔ ∃ a, x = .ok a ∧ f a = .ok r := by
  cases x <;> simp [bind, Except.bind]

theorem find_int64 (t : Table account) (scope pk : Nat) (a : account)
    (hty : accounts_int64 t) (h : Table.find t scope pk = some a) :
    is_int64 a.balance.amount := by
  unfold Table.find at h
  rw [Option.map_eq_some'] at h
  obtain ⟨r, hr, e⟩ := h
  have := hty r (List.mem_of_find?_eq_some hr)
  rw [e] at this
  exact this

theorem games_get_ok (games : Table st_game) (name : symbol_name) (msg : String) (g : st_game) :
    games_get games name msg = .ok g ↔ Table.find games name N_games = some g := by
  unfold games_get
  cases Table.find games name N_games <;> simp [pure, Except.pure, throw, throwThe, MonadExceptOf.throw]

/-- What a debit that returns has done. -/
theorem sub_balance_ok (t t1 : Table account) (owner : account_name) (key : symbol_name)
    (player : account) (quantity : asset)
    (hint : is_int64 player.balance.amount)
    (hpos : 0 < quantity.amount) (hle : quantity.amount ≤ player.balance.amount)
    (h : sub_balance t owner key player quantity = .ok t1) :
    quantity.symbol = player.balance.symbol ∧
    player.balance.amount - quantity.amount ≤ max_amount ∧
    t1 = (if player.balance.amount - quantity.amount = 0 then
        Table.erase (Table.put t owner key
          ⟨⟨player.balance.amount - quantity.amount, player.balance.symbol⟩⟩) owner key
      else Table.put t owner key
          ⟨⟨player.balance.amount - quantity.amount, player.balance.symbol⟩⟩) := by
  have hw : wrap64 (player.balance.amount - quantity.amount)
      = player.balance.amount - quantity.amount := by
    apply wrap64_of_int64
    unfold is_int64 at *
    omega
  unfold sub_balance at h
  rw [bind_ok] at h
  obtain ⟨balance, hb, h⟩ := h
  obtain ⟨e1, e2, -, e4⟩ := asset_sub_ok _ _ _ hb
  rw [hw] at e2 e4
  subst e2
  refine ⟨e1, e4, ?_⟩
  by_cases hz : player.balance.amount - quantity.amount = 0
  · simp only [hz, if_true, pure, Except.pure, Except.ok.injEq] at h ⊢
    exact h.symm
  · simp only [hz, if_false, pure, Except.pure, Except.ok.injEq] at h ⊢
    exact h.symm

/-- After a debit: the holder's record. -/
theorem sub_balance_find_same (t t1 : Table account) (owner : account_name) (key : symbol_name)
    (player : account) (quantity : asset) (hwf : Table.wf t)
    (hfind : Table.find t owner key = some player)
    (hint : is_int64 player.balance.amount)
    (hpos : 0 < quantity.amount) (hle : quantity.amount ≤ player.balance.amount)
    (h : sub_balance t owner key player quantity = .ok t1) :
    Table.find t1 owner key =
      if player.balance.amount - quantity.amount = 0 then none
      else some ⟨⟨player.balance.amount - quantity.amount, player.balance.symbol⟩⟩ := by
  obtain ⟨-, -, e⟩ := sub_balance_ok t t1 owner key player quantity hint hpos hle h
  rw [e]
  split
  · exact find_erase_same _ _ _ (wf_put _ _ _ _ hwf)
  · exact find_put_same _ _ _ _ (by rw [hfind]; rfl)

/-- After a debit: every other record. -/
theorem sub_balance_find_other (t t1 : Table account) (owner : account_name) (key : symbol_name)
    (player : account) (quantity : asset)
    (hint : is_int64 player.balance.amount)
    (hpos : 0 < quantity.amount) (hle : quantity.amount ≤ player.balance.amount)
    (h : sub_balance t owner key player quantity = .ok t1)
    (scope1 pk1 : Nat) (hne : ¬ (scope1 = owner ∧ pk1 = key)) :
    Table.find t1 scope1 pk1 = Table.find t scope1 pk1 := by
  obtain ⟨-, -, e⟩ := sub_balance_ok t t1 owner key player quantity hint hpos hle h
  rw [e]
  split
  · rw [find_erase_other _ _ _ _ _ hne, find_put_other _ _ _ _ _ _ hne]
  · rw [find_put_other _ _ _ _ _ _ hne]

/-- After a debit: the table is still well formed. -/
theorem sub_balance_wf (t t1 : Table account) (owner : account_name) (key : symbol_name)
    (player : account) (quantity : asset) (hwf : Table.wf t)
    (hint : is_int64 player.balance.amount)
    (hpos : 0 < quantity.amount) (hle : quantity.amount ≤ player.balance.amount)
    (h : sub_balance t owner key player quantity = .ok t1) : Table.wf t1 := by
  obtain ⟨-, -, e⟩ := sub_balance_ok t t1 owner key player quantity hint hpos hle h
  rw [e]
  split
  · exact wf_erase _ _ _ (wf_put _ _ _ _ hwf)
  · exact wf_put _ _ _ _ hwf

/-- After a debit: the sum of the balances of a symbol. -/
theorem sub_balance_sum (t t1 : Table account) (owner : account_name) (key : symbol_name)
    (player : account) (quantity : asset)
    (hfind : Table.find t owner key = some player)
    (hint : is_int64 player.balance.amount)
    (hpos : 0 < quantity.amount) (hle : quantity.amount ≤ player.balance.amount)
    (h : sub_balance t owner key player quantity = .ok t1) (name : symbol_name) :
    balance_sum t1 name = balance_sum t name - (if key = name then quantity.amount else 0) := by
  obtain ⟨-, -, e⟩ := sub_balance_ok t t1 owner key player quantity hint hpos hle h
  rw [e]
  have hp := sum_put t owner key
    ⟨⟨player.balance.amount - quantity.amount, player.balance.symbol⟩⟩ player name hfind
  split
  · rename_i hz
    rw [sum_erase _ owner key _ name (find_put_same _ _ _ _ (by rw [hfind]; rfl)), hp]
    split <;> (try dsimp only) <;> omega
  · rw [hp]
    split <;> (try dsimp only) <;> omega

/-- After a debit: the stored balances are still values of `int64_t`. -/
theorem sub_balance_int64 (t t1 : Table account) (owner : account_name) (key : symbol_name)
    (player : account) (quantity : asset) (hty : accounts_int64 t)
    (hint : is_int64 player.balance.amount)
    (hpos : 0 < quantity.amount) (hle : quantity.amount ≤ player.balance.amount)
    (h : sub_balance t owner key player quantity = .ok t1) : accounts_int64 t1 := by
  obtain ⟨-, -, e⟩ := sub_balance_ok t t1 owner key player quantity hint hpos hle h
  have hnew : is_int64 (player.balance.amount - quantity.amount) := by
    unfold is_int64 at *
    omega
  have hput : accounts_int64 (Table.put t owner key
      ⟨⟨player.balance.amount - quantity.amount, player.balance.symbol⟩⟩) := by
    clear e h
    induction t with
    | nil => intro r hr; simp [Table.put] at hr
    | cons a t ih =>
      have ha : is_int64 a.val.balance.amount := hty a (List.mem_cons_self _ _)
      have ht : accounts_int64 t := fun r hr => hty r (List.mem_cons_of_mem _ hr)
      unfold Table.put
      split
      · intro r hr
        rcases List.mem_cons.1 hr with e | m
        · rw [e]; exact hnew
        · exact ht r m
      · intro r hr
        rcases List.mem_cons.1 hr with e | m
        · rw [e]; exact ha
        · exact ih ht r m
  rw [e]
  split
  · intro r hr
    exact hput r (List.mem_of_mem_eraseP hr)
  · exact hput

/-- What a credit that returns has done. -/
theorem add_balance_ok (t t1 : Table account) (owner : account_name) (key : symbol_name)
    (quantity : asset) (h : add_balance t owner key quantity = .ok t1) :
    (Table.find t owner key = none ∧ Table.find t owner quantity.symbol.name = none ∧
        t1 = t ++ [⟨owner, quantity.symbol.name, ⟨quantity⟩⟩]) ∨
    (∃ a, Table.find t owner key = some a ∧ quantity.symbol = a.balance.symbol ∧
        -max_amount ≤ wrap64 (a.balance.amount + quantity.amount) ∧
        wrap64 (a.balance.amount + quantity.amount) ≤ max_amount ∧
        t1 = Table.put t owner key
          ⟨⟨wrap64 (a.balance.amount + quantity.amount), a.balance.symbol⟩⟩) := by
  unfold add_balance at h
  cases hf : Table.find t owner key with
  | none =>
    rw [hf] at h
    obtain ⟨h1, h2⟩ := emplace_ok _ _ _ _ _ h
    exact Or.inl ⟨rfl, h1, h2⟩
  | some a =>
    rw [hf] at h
    simp only [bind_ok] at h
    obtain ⟨balance, hb, h⟩ := h
    obtain ⟨e1, e2, e3, e4⟩ := asset_add_ok _ _ _ hb
    simp only [pure, Except.pure, Except.ok.injEq] at h
    exact Or.inr ⟨a, rfl, e1, e3, e4, by rw [← h, e2]⟩

/-! The actions: what a run that returns has checked and done -/

theorem issue_ok (c : Ctx) (s : State) (to_ : account_name) (quantity : asset)
    (memo : List Nat) (r : State × List Sent)
    (h : issue c s to_ quantity memo = .ok r) :
    ∃ st supply, Table.find s.stats quantity.symbol.name quantity.symbol.name = some st ∧
      c.has_auth st.issuer = true ∧ memo.length ≤ 256 ∧
      st.supply.add quantity = .ok supply ∧
      quantity.amount ≤ wrap64 (st.max_supply.amount - st.supply.amount) ∧
      0 < quantity.amount ∧
      r = ({ s with
              stats := Table.put s.stats quantity.symbol.name quantity.symbol.name
                ({ st with supply := supply }) }, []) := by
  unfold issue at h
  simp only [assert_bind_ok, decide_eq_true_eq] at h
  obtain ⟨-, hm, h⟩ := h
  cases hf : Table.find s.stats quantity.symbol.name quantity.symbol.name with
  | none => simp [hf, throw, throwThe, MonadExceptOf.throw] at h
  | some st =>
    simp only [hf, require_auth, assert_bind_ok, decide_eq_true_eq] at h
    obtain ⟨ha, -, hpos, -, hle, h⟩ := h
    rw [bind_ok] at h
    obtain ⟨supply, hs, h⟩ := h
    simp only [pure, Except.pure, Except.ok.injEq] at h
    exact ⟨st, supply, rfl, ha, hm, hs, hle, hpos, h.symm⟩

/-- C1 (supply ceiling). For a Supply record with `0 ≤ supply ≤ max_supply`: an
`issue` that succeeds leaves the record with `supply` raised by exactly the
quantity's amount, still at most `max_supply`, and `max_supply` and `issuer` as
they were; and `issue` fails when the quantity's amount exceeds
`max_supply - supply`. -/
theorem issue_supply_ceiling (c : Ctx) (s : State) (to_ : account_name) (quantity : asset)
    (memo : List Nat) (st : currency_stats)
    (hfind : Table.find s.stats quantity.symbol.name quantity.symbol.name = some st)
    (h0 : 0 ≤ st.supply.amount) (hmax : st.supply.amount ≤ st.max_supply.amount)
    (hty : is_int64 st.max_supply.amount) :
    (∀ s1 out, issue c s to_ quantity memo = .ok (s1, out) →
      ∃ st1, Table.find s1.stats quantity.symbol.name quantity.symbol.name = some st1 ∧
        st1.supply.amount = st.supply.amount + quantity.amount ∧
        st1.supply.amount ≤ st1.max_supply.amount ∧
        st1.max_supply = st.max_supply ∧ st1.issuer = st.issuer) ∧
    (quantity.amount > st.max_supply.amount - st.supply.amount →
      succeeds (issue c s to_ quantity memo) = false) := by
  have hw : wrap64 (st.max_supply.amount - st.supply.amount)
      = st.max_supply.amount - st.supply.amount := by
    apply wrap64_of_int64
    unfold is_int64 at *
    omega
  constructor
  · intro s1 out h
    obtain ⟨st', supply, hf, -, -, hs, hle, hpos, e⟩ := issue_ok c s to_ quantity memo _ h
    rw [hfind] at hf
    have e' := Option.some.inj hf
    subst e'
    rw [hw] at hle
    obtain ⟨-, e2, -, -⟩ := asset_add_ok _ _ _ hs
    have hw2 : wrap64 (st.supply.amount + quantity.amount)
        = st.supply.amount + quantity.amount := by
      apply wrap64_of_int64
      unfold is_int64 at *
      omega
    rw [hw2] at e2
    simp only [Prod.mk.injEq] at e
    refine ⟨{ st with supply := supply }, ?_, ?_, ?_, rfl, rfl⟩
    · rw [e.1]
      exact find_put_same _ _ _ _ (by rw [hfind]; rfl)
    · rw [e2]
    · rw [e2]
      show st.supply.amount + quantity.amount ≤ st.max_supply.amount
      omega
  · intro hgt
    cases hr : issue c s to_ quantity memo with
    | error e => rfl
    | ok r =>
      obtain ⟨st', supply, hf, -, -, hs, hle, hpos, e⟩ := issue_ok c s to_ quantity memo _ hr
      rw [hfind] at hf
      have e' := Option.some.inj hf
      subst e'
      rw [hw] at hle
      omega

theorem is_valid_range (q : asset) (h : q.is_valid = true) :
    -max_amount ≤ q.amount ∧ q.amount ≤ max_amount := by
  unfold asset.is_valid asset.is_amount_within_range at h
  simp only [Bool.and_eq_true, decide_eq_true_eq] at h
  exact h.1

/-- After a credit under the quantity's own symbol name: the holder's record. -/
theorem add_balance_find_same (t t1 : Table account) (owner : account_name)
    (quantity : asset) (hty : accounts_int64 t)
    (hq : -max_amount ≤ quantity.amount ∧ quantity.amount ≤ max_amount)
    (h : add_balance t owner quantity.symbol.name quantity = .ok t1) :
    Table.find t1 owner quantity.symbol.name =
      match Table.find t owner quantity.symbol.name with
      | none => some ⟨quantity⟩
      | some a => some ⟨⟨a.balance.amount + quantity.amount, a.balance.symbol⟩⟩ := by
  rcases add_balance_ok _ _ _ _ _ h with ⟨h1, -, e⟩ | ⟨a, h1, -, h3, h4, e⟩
  · rw [e, find_append_single, h1]
    simp
  · rw [e, h1, find_put_same _ _ _ _ (by rw [h1]; rfl)]
    have := wrap64_add_exact _ _ (find_int64 _ _ _ _ hty h1) hq ⟨h3, h4⟩
    simp only [this]

/-- After a credit: the records of every other holder, and of the holder under
every other key. -/
theorem add_balance_find_other (t t1 : Table account) (owner : account_name)
    (quantity : asset)
    (h : add_balance t owner quantity.symbol.name quantity = .ok t1)
    (scope1 pk1 : Nat) (hne : ¬ (scope1 = owner ∧ pk1 = quantity.symbol.name)) :
    Table.find t1 scope1 pk1 = Table.find t scope1 pk1 := by
  rcases add_balance_ok _ _ _ _ _ h with ⟨-, -, e⟩ | ⟨a, -, -, -, -, e⟩
  · rw [e, find_append_single]
    have : ¬ (owner = scope1 ∧ quantity.symbol.name = pk1) := fun ⟨a, b⟩ => hne ⟨a.symm, b.symm⟩
    simp only [this, if_false]
    cases Table.find t scope1 pk1 <;> rfl
  · rw [e, find_put_other _ _ _ _ _ _ hne]

/-- After a credit under the quantity's own symbol name: the sum of the
balances of a symbol. -/
theorem add_balance_sum (t t1 : Table account) (owner : account_name)
    (quantity : asset) (hty : accounts_int64 t)
    (hq : -max_amount ≤ quantity.amount ∧ quantity.amount ≤ max_amount)
    (h : add_balance t owner quantity.symbol.name quantity = .ok t1) (name : symbol_name) :
    balance_sum t1 name =
      balance_sum t name + (if quantity.symbol.name = name then quantity.amount else 0) := by
  rcases add_balance_ok _ _ _ _ _ h with ⟨-, -, e⟩ | ⟨a, h1, -, h3, h4, e⟩
  · rw [e, sum_append_single]
  · rw [e, sum_put _ _ _ _ a name h1]
    have := wrap64_add_exact _ _ (find_int64 _ _ _ _ hty h1) hq ⟨h3, h4⟩
    simp only [this]
    split <;> omega

theorem transfer_ok (c : Ctx) (s : State) (from_ to_ : account_name) (quantity : asset)
    (memo : List Nat) (r : State × List Sent)
    (h : transfer c s from_ to_ quantity memo = .ok r) :
    from_ ≠ to_ ∧ c.has_auth from_ = true ∧ c.is_account to_ = true ∧
    quantity.is_valid = true ∧ 0 < quantity.amount ∧ memo.length ≤ 256 ∧
    ∃ game player accounts1 accounts2,
      Table.find s.games quantity.symbol.name N_games = some game ∧
      quantity.symbol = game.symbol ∧
      Table.find s.accounts from_ quantity.symbol.name = some player ∧
      quantity.amount ≤ player.balance.amount ∧
      sub_balance s.accounts from_ quantity.symbol.name player quantity = .ok accounts1 ∧
      add_balance accounts1 to_ quantity.symbol.name quantity = .ok accounts2 ∧
      r = ({ s with accounts := accounts2 }, [Sent.recipient from_, Sent.recipient to_]) := by
  unfold transfer at h
  simp only [require_auth, assert_bind_ok, decide_eq_true_eq] at h
  obtain ⟨h1, h2, h3, h⟩ := h
  rw [bind_ok] at h
  obtain ⟨game, hg, h⟩ := h
  rw [games_get_ok] at hg
  simp only [assert_bind_ok, decide_eq_true_eq] at h
  obtain ⟨h4, h5, h6, h7, h⟩ := h
  cases hf : Table.find s.accounts from_ quantity.symbol.name with
  | none => simp [hf, throw, throwThe, MonadExceptOf.throw] at h
  | some player =>
    simp only [hf, assert_bind_ok, decide_eq_true_eq] at h
    obtain ⟨h8, h⟩ := h
    rw [bind_ok] at h
    obtain ⟨accounts1, ha1, h⟩ := h
    rw [bind_ok] at h
    obtain ⟨accounts2, ha2, h⟩ := h
    simp only [pure, Except.pure, Except.ok.injEq] at h
    exact ⟨h1, h2, h3, h4, h5, h7, game, player, accounts1, accounts2, hg, h6, rfl, h8, ha1,
      ha2, h.symm⟩

/-- C3 (transfer effect). A transfer that succeeds lowers the balance of `from`
by exactly the quantity's amount and raises that of `to` by exactly the same
amount (a record holding the quantity being created when `to` had none), leaves
every other Balance record, every Game and every Supply record as it was, and
so keeps the sum of the balances of the symbol. -/
theorem transfer_effect (c : Ctx) (s s1 : State) (from_ to_ : account_name) (quantity : asset)
    (memo : List Nat) (out : List Sent)
    (hwf : Table.wf s.accounts) (hty : accounts_int64 s.accounts)
    (h : transfer c s from_ to_ quantity memo = .ok (s1, out)) :
    balance_of s1 from_ quantity.symbol.name
        = balance_of s from_ quantity.symbol.name - quantity.amount ∧
    balance_of s1 to_ quantity.symbol.name
        = balance_of s to_ quantity.symbol.name + quantity.amount ∧
    (Table.find s.accounts to_ quantity.symbol.name = none →
      Table.find s1.accounts to_ quantity.symbol.name = some ⟨quantity⟩) ∧
    (∀ holder name, ¬ ((holder = from_ ∨ holder = to_) ∧ name = quantity.symbol.name) →
      Table.find s1.accounts holder name = Table.find s.accounts holder name) ∧
    s1.games = s.games ∧ s1.stats = s.stats ∧
    balance_sum s1.accounts quantity.symbol.name
        = balance_sum s.accounts quantity.symbol.name := by
  obtain ⟨hne, -, -, hv, hpos, -, game, player, accounts1, accounts2, -, -, hf, hle, ha1, ha2, e⟩
    := transfer_ok c s from_ to_ quantity memo _ h
  simp only [Prod.mk.injEq] at e
  obtain ⟨e, -⟩ := e
  subst e
  have hint := find_int64 _ _ _ _ hty hf
  have hq := is_valid_range _ hv
  have hty1 := sub_balance_int64 _ _ _ _ _ _ hty hint hpos hle ha1
  have hto1 : Table.find accounts1 to_ quantity.symbol.name
      = Table.find s.accounts to_ quantity.symbol.name :=
    sub_balance_find_other _ _ _ _ _ _ hint hpos hle ha1 _ _ (fun ⟨a, _⟩ => hne a.symm)
  have hfrom1 := sub_balance_find_same _ _ _ _ _ _ hwf hf hint hpos hle ha1
  have hfrom2 : Table.find accounts2 from_ quantity.symbol.name
      = Table.find accounts1 from_ quantity.symbol.name :=
    add_balance_find_other _ _ _ _ ha2 _ _ (fun ⟨a, _⟩ => hne a)
  have hto2 := add_balance_find_same _ _ _ _ hty1 hq ha2
  rw [hto1] at hto2
  refine ⟨?_, ?_, ?_, ?_, rfl, rfl, ?_⟩
  · simp only [balance_of, hfrom2, hfrom1, hf]
    split_ifs with hz
    · simp only []; omega
    · rfl
  · simp only [balance_of, hto2]
    cases Table.find s.accounts to_ quantity.symbol.name with
    | none => simp
    | some a => simp
  · intro hnone
    simp only [hto2, hnone]
  · intro holder name hn
    have n1 : ¬ (holder = to_ ∧ name = quantity.symbol.name) := fun ⟨a, b⟩ => hn ⟨Or.inr a, b⟩
    have n2 : ¬ (holder = from_ ∧ name = quantity.symbol.name) := fun ⟨a, b⟩ => hn ⟨Or.inl a, b⟩
    show Table.find accounts2 holder name = _
    rw [add_balance_find_other _ _ _ _ ha2 _ _ n1,
      sub_balance_find_other _ _ _ _ _ _ hint hpos hle ha1 _ _ n2]
  · show balance_sum accounts2 _ = _
    rw [add_balance_sum _ _ _ _ hty1 hq ha2, sub_balance_sum _ _ _ _ _ _ hf hint hpos hle ha1]
    simp

theorem ok_bind {α β : Type} (a : α) (f : α → Except String β) :
    ((Except.ok a : Except String α) >>= f) = f a := rfl

theorem transfer_error_of_rejected (c : Ctx) (s : State) (from_ to_ : account_name)
    (quantity : asset) (memo : List Nat)
    (h : from_ = to_ ∨
      Table.find s.accounts from_ quantity.symbol.name = none ∨
      (∃ a, Table.find s.accounts from_ quantity.symbol.name = some a ∧
        a.balance.amount < quantity.amount) ∨
      quantity.amount ≤ 0 ∨
      Table.find s.games quantity.symbol.name N_games = none ∨
      (∃ g, Table.find s.games quantity.symbol.name N_games = some g ∧
        quantity.symbol ≠ g.symbol) ∨
      memo.length > 256) :
    ∃ e, transfer c s from_ to_ quantity memo = .error e := by
  cases hr : transfer c s from_ to_ quantity memo with
  | error e => exact ⟨e, rfl⟩
  | ok r =>
    exfalso
    obtain ⟨h1, -, -, -, h5, h6, game, player, -, -, hg, hs, hf, hle, -, -, -⟩ :=
      transfer_ok c s from_ to_ quantity memo r hr
    rcases h with h | h | ⟨a, ha, hlt⟩ | h | h | ⟨g, hg', hne⟩ | h
    · exact h1 h
    · rw [hf] at h; cases h
    · rw [hf] at ha
      cases ha
      omega
    · omega
    · rw [hg] at h; cases h
    · rw [hg] at hg'
      cases hg'
      exact hne hs
    · omega

theorem transfer_succeeds_of (c : Ctx) (s : State) (from_ to_ : account_name)
    (quantity : asset) (memo : List Nat) (game : st_game) (player : account)
    (h1 : from_ ≠ to_) (h2 : c.has_auth from_ = true) (h3 : c.is_account to_ = true)
    (hg : Table.find s.games quantity.symbol.name N_games = some game)
    (h4 : quantity.is_valid = true) (h5 : 0 < quantity.amount)
    (h6 : quantity.symbol = game.symbol) (h7 : memo.length ≤ 256)
    (hf : Table.find s.accounts from_ quantity.symbol.name = some player)
    (h8 : quantity.amount ≤ player.balance.amount)
    (h9 : quantity.symbol = player.balance.symbol)
    (h10 : player.balance.amount - quantity.amount ≤ max_amount)
    (h11 : ∀ a, Table.find s.accounts to_ quantity.symbol.name = some a →
      quantity.symbol = a.balance.symbol ∧ a.balance.amount + quantity.amount ≤ max_amount ∧
        -max_amount ≤ a.balance.amount + quantity.amount) :
    ∃ r, transfer c s from_ to_ quantity memo = .ok r := by
  have hq := is_valid_range _ h4
  have hsub : player.balance.sub quantity
      = .ok ⟨player.balance.amount - quantity.amount, player.balance.symbol⟩ :=
    asset_sub_of _ _ h9 (by unfold max_amount; omega) h10
  have hint : is_int64 player.balance.amount := by
    unfold is_int64
    unfold max_amount at hq h10
    omega
  obtain ⟨accounts1, ha1⟩ : ∃ t1, sub_balance s.accounts from_ quantity.symbol.name player
      quantity = .ok t1 := by
    unfold sub_balance
    rw [hsub]
    by_cases hz : player.balance.amount - quantity.amount = 0
    · exact ⟨_, by simp only [bind, Except.bind, hz, if_true]; rfl⟩
    · exact ⟨_, by simp only [bind, Except.bind, hz, if_false]; rfl⟩
  have hto1 : Table.find accounts1 to_ quantity.symbol.name
      = Table.find s.accounts to_ quantity.symbol.name :=
    sub_balance_find_other _ _ _ _ _ _ hint h5 h8 ha1 _ _ (fun ⟨a, _⟩ => h1 a.symm)
  obtain ⟨accounts2, ha2⟩ : ∃ t2, add_balance accounts1 to_ quantity.symbol.name quantity
      = .ok t2 := by
    unfold add_balance
    rw [hto1]
    cases hto : Table.find s.accounts to_ quantity.symbol.name with
    | none =>
      refine ⟨_, emplace_of_none _ _ _ _ ?_⟩
      show Table.find accounts1 to_ quantity.symbol.name = none
      rw [hto1, hto]
    | some a =>
      obtain ⟨e1, e2, e3⟩ := h11 a hto
      refine ⟨Table.put accounts1 to_ quantity.symbol.name
        ⟨⟨a.balance.amount + quantity.amount, a.balance.symbol⟩⟩, ?_⟩
      simp only [asset_add_of _ _ e1 e3 e2, bind, Except.bind]
      rfl
  refine ⟨({ s with accounts := accounts2 }, [Sent.recipient from_, Sent.recipient to_]), ?_⟩
  have d1 : decide (from_ ≠ to_) = true := decide_eq_true h1
  have d5 : decide (quantity.amount > 0) = true := decide_eq_true h5
  have d6 : decide (quantity.symbol = game.symbol) = true := decide_eq_true h6
  have d7 : decide (memo.length ≤ 256) = true := decide_eq_true h7
  have d8 : decide (player.balance.amount ≥ quantity.amount) = true := decide_eq_true h8
  have dg := (games_get_ok s.games quantity.symbol.name
    "game not found by this symbol name" game).2 hg
  unfold transfer
  simp only [require_auth, d1, h2, h3, h4, d5, d6, d7, d8, assert_bind_true, dg, ok_bind, hf,
    ha1, ha2]
  rfl

theorem sell_ok (E : Engine) (c : Ctx) (s : State) (from_ : account_name) (quantity : asset)
    (r : State × List Sent) (h : sell E c s from_ quantity = .ok r) :
    c.has_auth from_ = true ∧
    ∃ player eos_quantity all_quantity games accounts fee,
      Table.find s.accounts from_ quantity.symbol.name = some player ∧
      quantity.symbol = player.balance.symbol ∧
      0 < quantity.amount ∧ quantity.amount ≤ player.balance.amount ∧
      E.game_sell s.games quantity.symbol.name quantity.amount
        = .ok ((eos_quantity, all_quantity), games) ∧
      0 < eos_quantity.amount ∧
      sub_balance s.accounts from_ quantity.symbol.name player quantity = .ok accounts ∧
      all_quantity.sub eos_quantity = .ok fee ∧
      r = ({ s with games := games, accounts := accounts },
        [Sent.token_transfer c.self from_ eos_quantity "tokendapppub withdraw https://dapp.pub",
         Sent.receipt from_ "sell" quantity all_quantity fee]) := by
  unfold sell at h
  simp only [require_auth, assert_bind_ok] at h
  obtain ⟨h1, h⟩ := h
  cases hf : Table.find s.accounts from_ quantity.symbol.name with
  | none => simp [hf, throw, throwThe, MonadExceptOf.throw] at h
  | some player =>
    simp only [hf, assert_bind_ok, decide_eq_true_eq, Bool.and_eq_true] at h
    obtain ⟨h2, ⟨h3, h4⟩, h⟩ := h
    rw [bind_ok] at h
    obtain ⟨⟨⟨eos_quantity, all_quantity⟩, games⟩, hs, h⟩ := h
    simp only [assert_bind_ok, decide_eq_true_eq] at h
    obtain ⟨h5, h⟩ := h
    rw [bind_ok] at h
    obtain ⟨accounts, ha, h⟩ := h
    rw [bind_ok] at h
    obtain ⟨fee, hfee, h⟩ := h
    simp only [pure, Except.pure, Except.ok.injEq] at h
    exact ⟨h1, player, eos_quantity, all_quantity, games, accounts, fee, rfl, h2, h3, h4, hs,
      h5, ha, hfee, h.symm⟩

theorem consume_ok (E : Engine) (c : Ctx) (s : State) (from_ : account_name)
    (quantity : asset) (memo : List Nat)
    (r : State × List Sent) (h : consume E c s from_ quantity memo = .ok r) :
    c.has_auth from_ = true ∧
    ∃ player games accounts,
      Table.find s.accounts from_ quantity.symbol.name = some player ∧
      quantity.symbol = player.balance.symbol ∧
      0 < quantity.amount ∧ quantity.amount ≤ player.balance.amount ∧
      E.game_consume s.games quantity.symbol.name quantity.amount = .ok games ∧
      sub_balance s.accounts from_ quantity.symbol.name player quantity = .ok accounts ∧
      r = ({ s with games := games, accounts := accounts }, []) := by
  unfold consume at h
  simp only [require_auth, assert_bind_ok] at h
  obtain ⟨h1, h⟩ := h
  cases hf : Table.find s.accounts from_ quantity.symbol.name with
  | none => simp [hf, throw, throwThe, MonadExceptOf.throw] at h
  | some player =>
    simp only [hf, assert_bind_ok, decide_eq_true_eq, Bool.and_eq_true] at h
    obtain ⟨⟨h3, h4⟩, h2, h⟩ := h
    rw [bind_ok] at h
    obtain ⟨games, hs, h⟩ := h
    rw [bind_ok] at h
    obtain ⟨accounts, ha, h⟩ := h
    simp only [pure, Except.pure, Except.ok.injEq] at h
    exact ⟨h1, player, games, accounts, rfl, h2, h3, h4, hs, ha, h.symm⟩

theorem cleaned_up_of_find (s s1 : State) (holder : account_name) (name : symbol_name)
    (amount : Int) (player : account)
    (hf : Table.find s.accounts holder name = some player)
    (h : Table.find s1.accounts holder name =
      if player.balance.amount - amount = 0 then none
      else some ⟨⟨player.balance.amount - amount, player.balance.symbol⟩⟩) :
    cleaned_up s s1 holder name amount := by
  unfold cleaned_up balance_of
  rw [hf, h]
  constructor
  · intro hz
    simp only [] at hz
    rw [if_pos hz]
  · intro hp
    simp only [] at hp
    rw [if_neg (by omega)]
    exact ⟨player, rfl, rfl⟩

/-- C5 (zero-balance cleanup). When `sell`, `consume` or `transfer` succeeds,
the record of the debited holder for the symbol is gone if the debit left a
balance of exactly zero, and remains with the reduced amount if it left a
positive balance. -/
theorem zero_balance_cleanup (E : Engine) (c : Ctx) (s s1 : State) (from_ to_ : account_name)
    (quantity : asset) (memo : List Nat) (out : List Sent)
    (hwf : Table.wf s.accounts) (hty : accounts_int64 s.accounts) :
    (sell E c s from_ quantity = .ok (s1, out) →
      cleaned_up s s1 from_ quantity.symbol.name quantity.amount) ∧
    (consume E c s from_ quantity memo = .ok (s1, out) →
      cleaned_up s s1 from_ quantity.symbol.name quantity.amount) ∧
    (transfer c s from_ to_ quantity memo = .ok (s1, out) →
      cleaned_up s s1 from_ quantity.symbol.name quantity.amount) := by
  refine ⟨?_, ?_, ?_⟩
  · intro h
    obtain ⟨-, player, eos, all, games, accounts, fee, hf, -, hpos, hle, -, -, ha, -, e⟩ :=
      sell_ok E c s from_ quantity _ h
    simp only [Prod.mk.injEq] at e
    obtain ⟨e, -⟩ := e
    subst e
    exact cleaned_up_of_find _ _ _ _ _ player hf
      (sub_balance_find_same _ _ _ _ _ _ hwf hf (find_int64 _ _ _ _ hty hf) hpos hle ha)
  · intro h
    obtain ⟨-, player, games, accounts, hf, -, hpos, hle, -, ha, e⟩ :=
      consume_ok E c s from_ quantity memo _ h
    simp only [Prod.mk.injEq] at e
    obtain ⟨e, -⟩ := e
    subst e
    exact cleaned_up_of_find _ _ _ _ _ player hf
      (sub_balance_find_same _ _ _ _ _ _ hwf hf (find_int64 _ _ _ _ hty hf) hpos hle ha)
  · intro h
    obtain ⟨hne, -, -, hv, hpos, -, game, player, accounts1, accounts2, -, -, hf, hle, ha1, ha2, e⟩
      := transfer_ok c s from_ to_ quantity memo _ h
    simp only [Prod.mk.injEq] at e
    obtain ⟨e, -⟩ := e
    subst e
    have hfrom1 := sub_balance_find_same _ _ _ _ _ _ hwf hf (find_int64 _ _ _ _ hty hf)
      hpos hle ha1
    have hfrom2 : Table.find accounts2 from_ quantity.symbol.name
        = Table.find accounts1 from_ quantity.symbol.name :=
      add_balance_find_other _ _ _ _ ha2 _ _ (fun ⟨a, _⟩ => hne a)
    exact cleaned_up_of_find _ _ _ _ _ player hf (hfrom2.trans hfrom1)

theorem destroy_ok (E : Engine) (c : Ctx) (s : State) (name_str : List Nat)
    (r : State × List Sent) (h : destroy E c s name_str = .ok r) :
    ∃ game st,
      Table.find s.games (E._string_to_symbol_name name_str) N_games = some game ∧
      c.has_auth game.owner = true ∧ game.base_stake = game.stake ∧
      Table.find s.stats (E._string_to_symbol_name name_str) (E._string_to_symbol_name name_str)
        = some st ∧
      r = ({ s with
              games := Table.erase s.games (E._string_to_symbol_name name_str) N_games,
              stats := Table.erase s.stats (E._string_to_symbol_name name_str)
                (E._string_to_symbol_name name_str) }, []) := by
  unfold destroy at h
  rw [bind_ok] at h
  obtain ⟨game, hg, h⟩ := h
  rw [games_get_ok] at hg
  simp only [require_auth, assert_bind_ok, decide_eq_true_eq] at h
  obtain ⟨h1, h2, h⟩ := h
  cases hf : Table.find s.stats (E._string_to_symbol_name name_str)
      (E._string_to_symbol_name name_str) with
  | none => simp [hf, throw, throwThe, MonadExceptOf.throw] at h
  | some st =>
    simp only [hf, pure, Except.pure, Except.ok.injEq] at h
    exact ⟨game, st, hg, h1, h2, rfl, h.symm⟩

theorem destroy_of (E : Engine) (c : Ctx) (s : State) (name_str : List Nat)
    (game : st_game) (st : currency_stats)
    (hg : Table.find s.games (E._string_to_symbol_name name_str) N_games = some game)
    (ha : c.has_auth game.owner = true) (he : game.base_stake = game.stake)
    (hs : Table.find s.stats (E._string_to_symbol_name name_str)
      (E._string_to_symbol_name name_str) = some st) :
    destroy E c s name_str = .ok ({ s with
              games := Table.erase s.games (E._string_to_symbol_name name_str) N_games,
              stats := Table.erase s.stats (E._string_to_symbol_name name_str)
                (E._string_to_symbol_name name_str) }, []) := by
  have dg := (games_get_ok s.games (E._string_to_symbol_name name_str)
    "token not found by this symbol_name" game).2 hg
  have de : decide (game.base_stake = game.stake) = true := decide_eq_true he
  unfold destroy
  simp only [dg, ok_bind, require_auth, ha, de, assert_bind_true, hs]
  rfl

/-- C6, amended (destroy gate). When a Game exists for the named symbol and the
call bears its owner's authorization, `destroy` succeeds if and only if
`base_stake = stake` and a Supply record exists for the symbol; when
`base_stake ≠ stake` it fails and the database is unchanged. -/
theorem destroy_gate (E : Engine) (c : Ctx) (s : State) (name_str : List Nat) (game : st_game)
    (hg : Table.find s.games (E._string_to_symbol_name name_str) N_games = some game)
    (ha : c.has_auth game.owner = true) :
    (succeeds (destroy E c s name_str) = true ↔
      game.base_stake = game.stake ∧
        (Table.find s.stats (E._string_to_symbol_name name_str)
          (E._string_to_symbol_name name_str)).isSome = true) ∧
    (game.base_stake ≠ game.stake →
      succeeds (destroy E c s name_str) = false ∧ commit s (destroy E c s name_str) = s) := by
  have key : ∀ r, destroy E c s name_str = .ok r → game.base_stake = game.stake ∧
      (Table.find s.stats (E._string_to_symbol_name name_str)
          (E._string_to_symbol_name name_str)).isSome = true := by
    intro r hr
    obtain ⟨game', st, hg', -, he, hs, -⟩ := destroy_ok E c s name_str r hr
    rw [hg] at hg'
    cases hg'
    exact ⟨he, by rw [hs]; rfl⟩
  constructor
  · constructor
    · intro h
      cases hr : destroy E c s name_str with
      | error e => rw [hr] at h; cases h
      | ok r => exact key r hr
    · rintro ⟨he, hs⟩
      obtain ⟨st, hs⟩ := Option.isSome_iff_exists.1 hs
      rw [destroy_of E c s name_str game st hg ha he hs]
      rfl
  · intro hne
    cases hr : destroy E c s name_str with
    | error e => exact ⟨rfl, rfl⟩
    | ok r => exact absurd (key r hr).1 hne

/-- C7 (destroy effect). A `destroy` that succeeds removes the Game record and
the Supply record of the named symbol, which both existed, and leaves every
other Game record, every other Supply record and the whole `accounts` table as
they were. -/
theorem destroy_effect (E : Engine) (c : Ctx) (s s1 : State) (name_str : List Nat)
    (out : List Sent) (hwg : Table.wf s.games) (hws : Table.wf s.stats)
    (h : destroy E c s name_str = .ok (s1, out)) :
    (Table.find s.games (E._string_to_symbol_name name_str) N_games).isSome = true ∧
    (Table.find s.stats (E._string_to_symbol_name name_str)
      (E._string_to_symbol_name name_str)).isSome = true ∧
    Table.find s1.games (E._string_to_symbol_name name_str) N_games = none ∧
    Table.find s1.stats (E._string_to_symbol_name name_str)
      (E._string_to_symbol_name name_str) = none ∧
    (∀ scope pk, ¬ (scope = E._string_to_symbol_name name_str ∧ pk = N_games) →
      Table.find s1.games scope pk = Table.find s.games scope pk) ∧
    (∀ scope pk, ¬ (scope = E._string_to_symbol_name name_str ∧
        pk = E._string_to_symbol_name name_str) →
      Table.find s1.stats scope pk = Table.find s.stats scope pk) ∧
    s1.accounts = s.accounts ∧ out = [] := by
  obtain ⟨game, st, hg, -, -, hs, e⟩ := destroy_ok E c s name_str _ h
  simp only [Prod.mk.injEq] at e
  obtain ⟨e, eo⟩ := e
  subst e
  refine ⟨by rw [hg]; rfl, by rw [hs]; rfl, find_erase_same _ _ _ hwg, find_erase_same _ _ _ hws,
    fun scope pk hn => find_erase_other _ _ _ _ _ hn,
    fun scope pk hn => find_erase_other _ _ _ _ _ hn, rfl, eo⟩

theorem create_ok (c : Ctx) (s : State) (issuer : account_name) (maximum_supply : asset)
    (r : State × List Sent) (h : create c s issuer maximum_supply = .ok r) :
    c.has_auth issuer = true ∧ maximum_supply.is_valid = true ∧ 0 < maximum_supply.amount ∧
    Table.find s.stats maximum_supply.symbol.name maximum_supply.symbol.name = none ∧
    (∃ game, Table.find s.games maximum_supply.symbol.name N_games = some game ∧
      game.owner = issuer ∧
      wrap64 (wrap64 (game.base_stake - game.deserved_option) + game.base_option)
        = maximum_supply.amount) ∧
    r = ({ s with
            stats := s.stats ++ [⟨maximum_supply.symbol.name, maximum_supply.symbol.name,
              ⟨⟨0, maximum_supply.symbol⟩, maximum_supply, issuer⟩⟩] }, []) := by
  unfold create at h
  simp only [require_auth, assert_bind_ok, decide_eq_true_eq] at h
  obtain ⟨h1, -, h3, h4, h⟩ := h
  rw [bind_ok] at h
  obtain ⟨game, hg, h⟩ := h
  rw [games_get_ok] at hg
  simp only [assert_bind_ok, decide_eq_true_eq, Option.isNone_iff_eq_none] at h
  obtain ⟨h5, h6, h7, h⟩ := h
  rw [bind_ok] at h
  obtain ⟨stats, hs, h⟩ := h
  obtain ⟨-, e⟩ := emplace_ok _ _ _ _ _ hs
  simp only [pure, Except.pure, Except.ok.injEq] at h
  subst e
  exact ⟨h1, h3, h4, h7, ⟨game, hg, h5, h6⟩, h.symm⟩

/-- The sum `base_stake - deserved_option + base_option` of `create`, computed
in 64 bits, is the exact sum when it comes out as the amount of a valid
positive asset and the three amounts are within the range of assets. -/
theorem create_sum_exact (a b d m : Int)
    (ha : -max_amount ≤ a ∧ a ≤ max_amount) (hb : -max_amount ≤ b ∧ b ≤ max_amount)
    (hd : -max_amount ≤ d ∧ d ≤ max_amount) (hm : 0 < m ∧ m ≤ max_amount)
    (h : wrap64 (wrap64 (a - b) + d) = m) : a - b + d = m := by
  unfold wrap64 max_amount at *
  omega

/-- Outside the range of assets the sum of `create` can wrap: on `state_wrapping`
the exact sum is `2^64 + 100`, and `create` of `100 GAME` succeeds. -/
theorem create_sum_wraps :
    succeeds (create ctx_owner state_wrapping 1 ⟨100, GAME4⟩) = true ∧
    game_wrapping.base_stake - game_wrapping.deserved_option + game_wrapping.base_option
      = 2 ^ 64 + 100 :=
  ⟨by decide, by decide⟩

/-- C8 (create validation). Where the amounts of the Game are within the range
of assets: a `create` that succeeds was given a positive `max_supply` for a
symbol that has a Game owned by the issuer with
`base_stake - deserved_option + base_option = max_supply.amount` and no Supply
record; it adds exactly one Supply record, with supply 0, the given
`max_supply` and the issuer, and changes nothing else; and after it every
`create` for the same symbol fails. -/
theorem create_validation (c : Ctx) (s s1 : State) (issuer : account_name)
    (maximum_supply : asset) (out : List Sent)
    (hrange : ∀ game,
      Table.find s.games maximum_supply.symbol.name N_games = some game →
      (-max_amount ≤ game.base_stake ∧ game.base_stake ≤ max_amount) ∧
      (-max_amount ≤ game.deserved_option ∧ game.deserved_option ≤ max_amount) ∧
      (-max_amount ≤ game.base_option ∧ game.base_option ≤ max_amount))
    (h : create c s issuer maximum_supply = .ok (s1, out)) :
    (∃ game, Table.find s.games maximum_supply.symbol.name N_games = some game ∧
      game.owner = issuer ∧
      game.base_stake - game.deserved_option + game.base_option = maximum_supply.amount) ∧
    maximum_supply.amount > 0 ∧
    Table.find s.stats maximum_supply.symbol.name maximum_supply.symbol.name = none ∧
    s1 = { s with
            stats := s.stats ++ [⟨maximum_supply.symbol.name, maximum_supply.symbol.name,
              ⟨⟨0, maximum_supply.symbol⟩, maximum_supply, issuer⟩⟩] } ∧
    Table.find s1.stats maximum_supply.symbol.name maximum_supply.symbol.name
      = some ⟨⟨0, maximum_supply.symbol⟩, maximum_supply, issuer⟩ ∧
    (∀ (c2 : Ctx) (issuer2 : account_name) (maximum_supply2 : asset),
      maximum_supply2.symbol.name = maximum_supply.symbol.name →
      succeeds (create c2 s1 issuer2 maximum_supply2) = false) := by
  obtain ⟨-, hv, hpos, hnone, ⟨game, hg, howner, hsum⟩, e⟩ :=
    create_ok c s issuer maximum_supply _ h
  obtain ⟨r1, r2, r3⟩ := hrange game hg
  have hexact := create_sum_exact _ _ _ _ r1 r2 r3 ⟨hpos, (is_valid_range _ hv).2⟩ hsum
  simp only [Prod.mk.injEq] at e
  obtain ⟨e, -⟩ := e
  have hfind : Table.find s1.stats maximum_supply.symbol.name maximum_supply.symbol.name
      = some ⟨⟨0, maximum_supply.symbol⟩, maximum_supply, issuer⟩ := by
    rw [e]
    show Table.find (s.stats ++ _) _ _ = _
    rw [find_append_single, hnone]
    simp
  refine ⟨⟨game, hg, howner, hexact⟩, hpos, hnone, e, hfind, ?_⟩
  intro c2 issuer2 maximum_supply2 hn
  cases hr : create c2 s1 issuer2 maximum_supply2 with
  | error e => rfl
  | ok r =>
    obtain ⟨-, -, -, hnone2, -, -⟩ := create_ok c2 s1 issuer2 maximum_supply2 r hr
    rw [hn, hfind] at hnone2
    cases hnone2

theorem asset_ctor_zero_ok (sym : symbol_type) (b : asset) :
    asset.ctor 0 sym = .ok b ↔ sym.is_valid = true ∧ b = ⟨0, sym⟩ := by
  have hr : asset.is_amount_within_range ⟨0, sym⟩ = true := by
    simp [asset.is_amount_within_range, max_amount]
  unfold asset.ctor
  simp only [hr, assert_bind_true, assert_bind_ok, pure, Except.pure, Except.ok.injEq]
  constructor
  · rintro ⟨a, b⟩; exact ⟨a, b.symm⟩
  · rintro ⟨a, b⟩; exact ⟨a, b.symm⟩

theorem reg_ok (c : Ctx) (s : State) (from_ : account_name) (memo : List Nat)
    (r : State × List Sent) (h : reg c s from_ memo = .ok r) :
    c.has_auth from_ = true ∧ memo.length ≤ 7 ∧
    ∃ game, Table.find s.games (string_to_symbol 0 memo >>> 8) N_games = some game ∧
      ((∃ a, Table.find s.accounts from_ (string_to_symbol 0 memo >>> 8) = some a ∧
          r = (s, [])) ∨
       (Table.find s.accounts from_ (string_to_symbol 0 memo >>> 8) = none ∧
          game.symbol.is_valid = true ∧
          Table.find s.accounts from_ game.symbol.name = none ∧
          r = ({ s with accounts := s.accounts ++
                  [⟨from_, game.symbol.name, ⟨⟨0, game.symbol⟩⟩⟩] }, []))) := by
  unfold reg at h
  simp only [require_auth, assert_bind_ok, decide_eq_true_eq] at h
  obtain ⟨h1, h2, h⟩ := h
  rw [bind_ok] at h
  obtain ⟨game, hg, h⟩ := h
  rw [games_get_ok] at hg
  refine ⟨h1, h2, game, hg, ?_⟩
  cases hf : Table.find s.accounts from_ (string_to_symbol 0 memo >>> 8) with
  | some a =>
    simp only [hf, pure, Except.pure, Except.ok.injEq] at h
    exact Or.inl ⟨a, rfl, h.symm⟩
  | none =>
    simp only [hf] at h
    rw [bind_ok] at h
    obtain ⟨balance, hb, h⟩ := h
    rw [asset_ctor_zero_ok] at hb
    obtain ⟨hv, hb⟩ := hb
    subst hb
    rw [bind_ok] at h
    obtain ⟨accounts, ha, h⟩ := h
    obtain ⟨hn, e⟩ := emplace_ok _ _ _ _ _ ha
    subst e
    simp only [pure, Except.pure, Except.ok.injEq] at h
    exact Or.inr ⟨rfl, hv, hn, h.symm⟩

theorem reg_of_found (c : Ctx) (s : State) (from_ : account_name) (memo : List Nat)
    (game : st_game) (a : account)
    (h1 : c.has_auth from_ = true) (h2 : memo.length ≤ 7)
    (hg : Table.find s.games (string_to_symbol 0 memo >>> 8) N_games = some game)
    (hf : Table.find s.accounts from_ (string_to_symbol 0 memo >>> 8) = some a) :
    reg c s from_ memo = .ok (s, []) := by
  have d2 : decide (memo.length ≤ 7) = true := decide_eq_true h2
  have dg := (games_get_ok s.games (string_to_symbol 0 memo >>> 8)
    "token not found by this symbol name" game).2 hg
  unfold reg
  simp only [require_auth, h1, d2, assert_bind_true, dg, ok_bind, hf]
  rfl

/-- The run of `reg` for a holder without a record: with the holder's
authorization, a memo of at most 7 bytes and a Game of a valid symbol stored
under its own symbol name, `reg` succeeds and adds the record of amount 0. -/
theorem reg_of_absent (c : Ctx) (s : State) (from_ : account_name) (memo : List Nat)
    (game : st_game)
    (h1 : c.has_auth from_ = true) (h2 : memo.length ≤ 7)
    (hg : Table.find s.games (string_to_symbol 0 memo >>> 8) N_games = some game)
    (hn : game.symbol.name = string_to_symbol 0 memo >>> 8)
    (hv : game.symbol.is_valid = true)
    (hf : Table.find s.accounts from_ (string_to_symbol 0 memo >>> 8) = none) :
    reg c s from_ memo = .ok ({ s with
        accounts := s.accounts ++ [⟨from_, game.symbol.name, ⟨⟨0, game.symbol⟩⟩⟩] }, []) := by
  have d2 : decide (memo.length ≤ 7) = true := decide_eq_true h2
  have dg := (games_get_ok s.games (string_to_symbol 0 memo >>> 8)
    "token not found by this symbol name" game).2 hg
  have dc : asset.ctor 0 game.symbol = .ok ⟨0, game.symbol⟩ :=
    (asset_ctor_zero_ok game.symbol ⟨0, game.symbol⟩).2 ⟨hv, rfl⟩
  have hkey : Table.find s.accounts from_ (account.primary_key ⟨⟨0, game.symbol⟩⟩) = none := by
    show Table.find s.accounts from_ game.symbol.name = none
    rw [hn]
    exact hf
  have de := emplace_of_none s.accounts from_ (account.primary_key ⟨⟨0, game.symbol⟩⟩)
    ⟨⟨0, game.symbol⟩⟩ hkey
  unfold reg
  simp only [require_auth, h1, d2, assert_bind_true, dg, ok_bind, hf, dc, de]
  rfl

/-- C9 (idempotent registration). Running `reg` a second time leaves the
database as the first run left it. When the memo names a Game stored under
its own symbol name, a `reg` that succeeds is followed by one that succeeds
and changes nothing; starting without a record for the holder and the symbol
it leaves exactly one, of amount 0 in the Game's symbol; and it keeps every
record that was there. And `reg` does succeed, with the holder's authorization
and a memo of at most 7 bytes: adding that one record when the holder has none
and the Game's symbol is valid, changing nothing when the holder has one. -/
theorem reg_idempotent (c : Ctx) (s : State) (from_ : account_name) (memo : List Nat)
    (game : st_game)
    (hg : Table.find s.games (string_to_symbol 0 memo >>> 8) N_games = some game)
    (hn : game.symbol.name = string_to_symbol 0 memo >>> 8) :
    commit (commit s (reg c s from_ memo)) (reg c (commit s (reg c s from_ memo)) from_ memo)
      = commit s (reg c s from_ memo) ∧
    (∀ s1 out, reg c s from_ memo = .ok (s1, out) →
      reg c s1 from_ memo = .ok (s1, []) ∧
      (Table.find s.accounts from_ (string_to_symbol 0 memo >>> 8) = none →
        Table.find s1.accounts from_ (string_to_symbol 0 memo >>> 8)
            = some ⟨⟨0, game.symbol⟩⟩ ∧
          (s1.accounts.filter (Row.at from_ (string_to_symbol 0 memo >>> 8))).length = 1) ∧
      (∀ holder name a, Table.find s.accounts holder name = some a →
        Table.find s1.accounts holder name = some a) ∧
      s1.games = s.games ∧ s1.stats = s.stats) ∧
    (c.has_auth from_ = true → memo.length ≤ 7 → game.symbol.is_valid = true →
      Table.find s.accounts from_ (string_to_symbol 0 memo >>> 8) = none →
      reg c s from_ memo = .ok ({ s with
        accounts := s.accounts ++ [⟨from_, game.symbol.name, ⟨⟨0, game.symbol⟩⟩⟩] }, [])) ∧
    (c.has_auth from_ = true → memo.length ≤ 7 →
      ∀ a, Table.find s.accounts from_ (string_to_symbol 0 memo >>> 8) = some a →
      reg c s from_ memo = .ok (s, [])) := by
  have main : ∀ s1 out, reg c s from_ memo = .ok (s1, out) →
      reg c s1 from_ memo = .ok (s1, []) ∧
      (Table.find s.accounts from_ (string_to_symbol 0 memo >>> 8) = none →
        Table.find s1.accounts from_ (string_to_symbol 0 memo >>> 8)
            = some ⟨⟨0, game.symbol⟩⟩ ∧
          (s1.accounts.filter (Row.at from_ (string_to_symbol 0 memo >>> 8))).length = 1) ∧
      (∀ holder name a, Table.find s.accounts holder name = some a →
        Table.find s1.accounts holder name = some a) ∧
      s1.games = s.games ∧ s1.stats = s.stats := by
    intro s1 out h
    obtain ⟨h1, h2, game', hg', hcase⟩ := reg_ok c s from_ memo _ h
    rw [hg] at hg'
    cases hg'
    rcases hcase with ⟨a, hf, e⟩ | ⟨hf, hv, hnone, e⟩
    · simp only [Prod.mk.injEq] at e
      obtain ⟨e, -⟩ := e
      subst e
      refine ⟨reg_of_found c s1 from_ memo game a h1 h2 hg hf, ?_, fun _ _ _ h => h, rfl, rfl⟩
      intro hnone
      rw [hf] at hnone
      cases hnone
    · simp only [Prod.mk.injEq] at e
      obtain ⟨e, -⟩ := e
      subst e
      have hnew : Table.find (s.accounts ++ [⟨from_, game.symbol.name, ⟨⟨0, game.symbol⟩⟩⟩])
          from_ (string_to_symbol 0 memo >>> 8) = some ⟨⟨0, game.symbol⟩⟩ := by
        rw [find_append_single, hf]
        simp [hn]
      refine ⟨reg_of_found c _ from_ memo game _ h1 h2 hg hnew, ?_, ?_, rfl, rfl⟩
      · intro _
        refine ⟨hnew, ?_⟩
        have hz : s.accounts.filter (Row.at from_ (string_to_symbol 0 memo >>> 8)) = [] := by
          rw [List.filter_eq_nil_iff]
          intro r hr
          have := (find_eq_none_iff _ _ _).1 hf r hr
          simp [this]
        show ((s.accounts ++ _).filter _).length = 1
        rw [List.filter_append, hz]
        simp [Row.at, hn]
      · intro holder name a ha
        show Table.find (s.accounts ++ _) holder name = some a
        rw [find_append_single, ha]
  refine ⟨?_, main, fun h1 h2 hv hf => reg_of_absent c s from_ memo game h1 h2 hg hn hv hf,
    fun h1 h2 a hf => reg_of_found c s from_ memo game a h1 h2 hg hf⟩
  cases hr : reg c s from_ memo with
  | error e => simp only [commit, hr]
  | ok r =>
    obtain ⟨s1, out⟩ := r
    have := (main s1 out hr).1
    simp only [commit, this]

/-- C10 (sell). `sell` fails when the holder has no record for the symbol,
when the quantity's amount is not positive or exceeds the holder's balance,
when the quantity's symbol differs from the record's, and when the net payout
`game_sell` returns is not positive. A `sell` that succeeds lowers the holder's
balance by exactly the quantity's amount, changes no other record of the
`accounts` table, and sends `eosio.token::transfer` from the contract to the
holder with the net asset that `game_sell` returned, which is positive. -/
theorem sell_checked (E : Engine) (c : Ctx) (s : State) (from_ : account_name)
    (quantity : asset) (hwf : Table.wf s.accounts) (hty : accounts_int64 s.accounts) :
    (Table.find s.accounts from_ quantity.symbol.name = none →
      succeeds (sell E c s from_ quantity) = false) ∧
    (quantity.amount ≤ 0 → succeeds (sell E c s from_ quantity) = false) ∧
    (quantity.amount > balance_of s from_ quantity.symbol.name →
      succeeds (sell E c s from_ quantity) = false) ∧
    (∀ a, Table.find s.accounts from_ quantity.symbol.name = some a →
      quantity.symbol ≠ a.balance.symbol → succeeds (sell E c s from_ quantity) = false) ∧
    (∀ eos_quantity all_quantity games,
      E.game_sell s.games quantity.symbol.name quantity.amount
        = .ok ((eos_quantity, all_quantity), games) →
      eos_quantity.amount ≤ 0 → succeeds (sell E c s from_ quantity) = false) ∧
    (∀ s1 out, sell E c s from_ quantity = .ok (s1, out) →
      balance_of s1 from_ quantity.symbol.name
        = balance_of s from_ quantity.symbol.name - quantity.amount ∧
      (∀ holder name, ¬ (holder = from_ ∧ name = quantity.symbol.name) →
        Table.find s1.accounts holder name = Table.find s.accounts holder name) ∧
      ∃ eos_quantity all_quantity games fee,
        E.game_sell s.games quantity.symbol.name quantity.amount
          = .ok ((eos_quantity, all_quantity), games) ∧
        0 < eos_quantity.amount ∧
        out = [Sent.token_transfer c.self from_ eos_quantity
                "tokendapppub withdraw https://dapp.pub",
               Sent.receipt from_ "sell" quantity all_quantity fee]) := by
  have fails : ∀ (P : Prop), (∀ r, sell E c s from_ quantity = .ok r → ¬ P) → P →
      succeeds (sell E c s from_ quantity) = false := by
    intro P hP p
    cases hr : sell E c s from_ quantity with
    | error e => rfl
    | ok r => exact absurd p (hP r hr)
  refine ⟨?_, ?_, ?_, ?_, ?_, ?_⟩
  · refine fails _ ?_
    intro r hr hnone
    obtain ⟨-, player, -, -, -, -, -, hf, -⟩ := sell_ok E c s from_ quantity r hr
    rw [hf] at hnone
    cases hnone
  · refine fails _ ?_
    intro r hr hle
    obtain ⟨-, player, -, -, -, -, -, -, -, hpos, -⟩ := sell_ok E c s from_ quantity r hr
    omega
  · refine fails _ ?_
    intro r hr hgt
    obtain ⟨-, player, -, -, -, -, -, hf, -, -, hle, -⟩ := sell_ok E c s from_ quantity r hr
    simp only [balance_of, hf] at hgt
    omega
  · intro a ha hne
    refine fails _ ?_ hne
    intro r hr hne
    obtain ⟨-, player, -, -, -, -, -, hf, hs, -⟩ := sell_ok E c s from_ quantity r hr
    rw [ha] at hf
    cases hf
    exact hne hs
  · intro eos_quantity all_quantity games hg hle
    refine fails _ ?_ hle
    intro r hr hle
    obtain ⟨-, player, eos, all, games', -, -, -, -, -, -, hg', hpos, -⟩ :=
      sell_ok E c s from_ quantity r hr
    rw [hg] at hg'
    cases hg'
    omega
  · intro s1 out h
    obtain ⟨-, player, eos, all, games, accounts, fee, hf, -, hpos, hle, hg, hepos, ha, -, e⟩ :=
      sell_ok E c s from_ quantity _ h
    simp only [Prod.mk.injEq] at e
    obtain ⟨e, eo⟩ := e
    subst e
    have hint := find_int64 _ _ _ _ hty hf
    refine ⟨?_, ?_, eos, all, games, fee, hg, hepos, eo⟩
    · have := sub_balance_find_same _ _ _ _ _ _ hwf hf hint hpos hle ha
      simp only [balance_of, this, hf]
      split_ifs with hz
      · simp only []; omega
      · rfl
    · intro holder name hn
      exact sub_balance_find_other _ _ _ _ _ _ hint hpos hle ha _ _ hn

/-! Examples -/

/-- C4, amended (transfer rejection). `transfer` fails, the database staying as
it was, whenever `from = to`, or `from` has no record for the symbol, or that
record holds less than the quantity, or the quantity's amount is not positive,
or there is no Game for the symbol, or the quantity's symbol differs from the
Game's, or the memo is longer than 256 bytes. When none of these holds, `from`
is authorized, `to` is an existing account, and moreover the quantity is a
valid asset, the record of `from` is in the quantity's symbol and is left with
at most `max_amount`, and the record of `to`, if there is one, is in the
quantity's symbol and stays within `max_amount` after the credit, it
succeeds. -/
theorem transfer_rejection (c : Ctx) (s : State) (from_ to_ : account_name)
    (quantity : asset) (memo : List Nat) :
    ((from_ = to_ ∨
      Table.find s.accounts from_ quantity.symbol.name = none ∨
      (∃ a, Table.find s.accounts from_ quantity.symbol.name = some a ∧
        a.balance.amount < quantity.amount) ∨
      quantity.amount ≤ 0 ∨
      Table.find s.games quantity.symbol.name N_games = none ∨
      (∃ g, Table.find s.games quantity.symbol.name N_games = some g ∧
        quantity.symbol ≠ g.symbol) ∨
      memo.length > 256) →
      succeeds (transfer c s from_ to_ quantity memo) = false ∧
        commit s (transfer c s from_ to_ quantity memo) = s) ∧
    (∀ game player, from_ ≠ to_ →
      Table.find s.accounts from_ quantity.symbol.name = some player →
      ¬ player.balance.amount < quantity.amount →
      ¬ quantity.amount ≤ 0 →
      Table.find s.games quantity.symbol.name N_games = some game →
      quantity.symbol = game.symbol →
      ¬ memo.length > 256 →
      c.has_auth from_ = true → c.is_account to_ = true →
      quantity.is_valid = true →
      quantity.symbol = player.balance.symbol →
      player.balance.amount - quantity.amount ≤ max_amount →
      (∀ a, Table.find s.accounts to_ quantity.symbol.name = some a →
        quantity.symbol = a.balance.symbol ∧
          a.balance.amount + quantity.amount ≤ max_amount ∧
          -max_amount ≤ a.balance.amount + quantity.amount) →
      succeeds (transfer c s from_ to_ quantity memo) = true) := by
  constructor
  · intro h
    obtain ⟨e, he⟩ := transfer_error_of_rejected c s from_ to_ quantity memo h
    rw [he]
    exact ⟨rfl, rfl⟩
  · intro game player h1 hf h8 h5 hg h6 h7 h2 h3 h4 h9 h10 h11
    obtain ⟨r, hr⟩ := transfer_succeeds_of c s from_ to_ quantity memo game player h1 h2 h3 hg
      h4 (by omega) h6 (by omega) hf (by omega) h9 h10 h11
    rw [hr]
    rfl

/-- C4 as stated fails: with `GAME` set up again at precision 2 and account 1
still holding `50 GAME` of precision 4, none of the listed reasons to reject
`transfer(1, 2, 50 GAME of precision 2)` holds, account 1 is authorized and
account 2 exists, and yet the transfer fails, in `asset::operator-=`. -/
theorem transfer_dangling_precision_counterexample :
    (1 : account_name) ≠ 2 ∧
    Table.find state_dangling.accounts 1 GAME2.name = some ⟨⟨50, GAME4⟩⟩ ∧
    ¬ ((50 : Int) < 50) ∧ ¬ ((50 : Int) ≤ 0) ∧
    Table.find state_dangling.games GAME2.name N_games
      = some { game_GAME with symbol := GAME2 } ∧
    (⟨50, GAME2⟩ : asset).symbol = ({ game_GAME with symbol := GAME2 } : st_game).symbol ∧
    ¬ (([] : List Nat).length > 256) ∧
    ctx_owner.has_auth 1 = true ∧ ctx_owner.is_account 2 = true ∧
    transfer ctx_owner state_dangling 1 2 ⟨50, GAME2⟩ []
      = .error "attempt to subtract asset with different symbol" :=
  ⟨by decide, by decide, by decide, by decide, by decide, rfl, by decide, by decide,
    by decide, rfl⟩

/-- C6 as stated fails: the Game of `GAME` exists with `base_stake = stake`, the
call bears its owner's authorization, and `destroy` fails, there being no
Supply record to erase. -/
theorem destroy_without_supply_counterexample :
    Table.find state_game_only.games (engine_par._string_to_symbol_name GAME_str) N_games
      = some game_GAME ∧
    ctx_owner.has_auth game_GAME.owner = true ∧
    game_GAME.base_stake = game_GAME.stake ∧
    destroy engine_par ctx_owner state_game_only GAME_str
      = .error "token with symbol do not exists" :=
  ⟨by decide, by decide, by decide, rfl⟩

/-- The supply ceiling at work: issuing all of `1000000 GAME` after `create`, and
a further unit being refused. -/
theorem issue_supply_ceiling_witness :
    (∃ st1, Table.find state_issued.stats GAME4.name GAME4.name = some st1 ∧
        st1.supply.amount = 0 + 1000000 ∧
        st1.supply.amount ≤ st1.max_supply.amount ∧
        st1.max_supply = stats_created.max_supply ∧ st1.issuer = stats_created.issuer) ∧
    succeeds (issue ctx_owner state_issued 1 ⟨1, GAME4⟩ []) = false :=
  ⟨(issue_supply_ceiling ctx_owner state_created 1 ⟨1000000, GAME4⟩ [] stats_created
      (by decide) (by decide) (by decide) (by decide)).1 state_issued [] rfl,
   (issue_supply_ceiling ctx_owner state_issued 1 ⟨1, GAME4⟩ [] stats_issued
      (by decide) (by decide) (by decide) (by decide)).2 (by decide)⟩

/-- The transfer effect at work: account 1 passes its 50 `GAME` to account 2. -/
theorem transfer_effect_witness :
    balance_of state_moved 1 GAME4.name = balance_of state_ledger 1 GAME4.name - 50 ∧
    balance_of state_moved 2 GAME4.name = balance_of state_ledger 2 GAME4.name + 50 ∧
    balance_sum state_moved.accounts GAME4.name = balance_sum state_ledger.accounts GAME4.name :=
  have h := transfer_effect ctx_owner state_ledger state_moved 1 2 ⟨50, GAME4⟩ []
    [Sent.recipient 1, Sent.recipient 2] (by decide) (by decide) rfl
  ⟨h.1, h.2.1, h.2.2.2.2.2.2⟩

/-- The transfer checks at work: a transfer to oneself is refused, and account 1
can pass its 50 `GAME` to account 2. -/
theorem transfer_rejection_witness :
    succeeds (transfer ctx_owner state_ledger 1 1 ⟨50, GAME4⟩ []) = false ∧
    succeeds (transfer ctx_owner state_ledger 1 2 ⟨50, GAME4⟩ []) = true :=
  ⟨((transfer_rejection ctx_owner state_ledger 1 1 ⟨50, GAME4⟩ []).1 (Or.inl rfl)).1,
   (transfer_rejection ctx_owner state_ledger 1 2 ⟨50, GAME4⟩ []).2 game_GAME ⟨⟨50, GAME4⟩⟩
      (by decide) (by decide) (by decide) (by decide) (by decide) (by decide) (by decide)
      (by decide) (by decide) (by decide) (by decide) (by decide)
      (fun a h => by
        have e : a = ⟨⟨30, GAME4⟩⟩ := (Option.some.inj h).symm
        subst e
        decide)⟩

/-- The cleanup at work: consuming or transferring all of its 50 `GAME` leaves
account 1 without a record. -/
theorem zero_balance_cleanup_witness :
    cleaned_up state_ledger state_drained 1 GAME4.name 50 ∧
    cleaned_up state_ledger state_moved 1 GAME4.name 50 :=
  ⟨(zero_balance_cleanup engine_par ctx_owner state_ledger state_drained 1 2 ⟨50, GAME4⟩ []
      [] (by decide) (by decide)).2.1 rfl,
   (zero_balance_cleanup engine_par ctx_owner state_ledger state_moved 1 2 ⟨50, GAME4⟩ []
      [Sent.recipient 1, Sent.recipient 2] (by decide) (by decide)).2.2 rfl⟩

/-- The destroy gate at work: with `base_stake = stake` and a Supply record, the
owner can destroy `GAME`. -/
theorem destroy_gate_witness :
    succeeds (destroy engine_par ctx_owner state_ledger GAME_str) = true :=
  ((destroy_gate engine_par ctx_owner state_ledger GAME_str game_GAME (by decide)
    (by decide)).1).2 ⟨by decide, by decide⟩

/-- The destroy effect at work: the Game and Supply records of `GAME` are gone
and the balances stay. -/
theorem destroy_effect_witness :
    Table.find state_destroyed.games (engine_par._string_to_symbol_name GAME_str) N_games
      = none ∧
    Table.find state_destroyed.stats (engine_par._string_to_symbol_name GAME_str)
      (engine_par._string_to_symbol_name GAME_str) = none ∧
    state_destroyed.accounts = state_ledger.accounts :=
  have h := destroy_effect engine_par ctx_owner state_ledger state_destroyed GAME_str []
    (by decide) (by decide) rfl
  ⟨h.2.2.1, h.2.2.2.1, h.2.2.2.2.2.2.1⟩

/-- The create checks at work: the first `create` adds the Supply record, the
second is refused. -/
theorem create_validation_witness :
    state_created = { state_game_only with
      stats := state_game_only.stats ++ [⟨GAME4.name, GAME4.name,
        ⟨⟨0, GAME4⟩, ⟨1000000, GAME4⟩, 1⟩⟩] } ∧
    succeeds (create ctx_owner state_created 1 ⟨1000000, GAME4⟩) = false :=
  have h := create_validation ctx_owner state_game_only state_created 1 ⟨1000000, GAME4⟩ []
    (fun game hg => by
      have e : game = game_GAME := (Option.some.inj hg).symm
      subst e
      decide)
    rfl
  ⟨h.2.2.2.1, h.2.2.2.2.2 ctx_owner 1 ⟨1000000, GAME4⟩ rfl⟩

/-- The registration at work: `reg(1, "GAME")` succeeds where account 1 has no
record and adds the one record of `0 GAME`; a second one changes nothing. -/
theorem reg_idempotent_witness :
    reg ctx_owner state_issued 1 GAME_str = .ok (state_registered, []) ∧
    reg ctx_owner state_registered 1 GAME_str = .ok (state_registered, []) ∧
    Table.find state_registered.accounts 1 (string_to_symbol 0 GAME_str >>> 8)
      = some ⟨⟨0, game_GAME.symbol⟩⟩ ∧
    (state_registered.accounts.filter
      (Row.at 1 (string_to_symbol 0 GAME_str >>> 8))).length = 1 :=
  have t := reg_idempotent ctx_owner state_issued 1 GAME_str game_GAME (by decide) (by decide)
  have hrun : reg ctx_owner state_issued 1 GAME_str = .ok (state_registered, []) :=
    t.2.2.1 (by decide) (by decide) (by decide) (by decide)
  have h := t.2.1 state_registered [] hrun
  ⟨hrun, h.1, (h.2.1 (by decide)).1, (h.2.1 (by decide)).2⟩

/-- The sell checks at work: account 1 sells its 50 `GAME`, and cannot sell 51. -/
theorem sell_checked_witness :
    balance_of state_drained 1 GAME4.name = balance_of state_ledger 1 GAME4.name - 50 ∧
    succeeds (sell engine_par ctx_owner state_ledger 1 ⟨51, GAME4⟩) = false :=
  have h := sell_checked engine_par ctx_owner state_ledger 1 ⟨50, GAME4⟩ (by decide) (by decide)
  ⟨(h.2.2.2.2.2 state_drained
      [Sent.token_transfer 100 1 ⟨50, EOS4⟩ "tokendapppub withdraw https://dapp.pub",
       Sent.receipt 1 "sell" ⟨50, GAME4⟩ ⟨50, EOS4⟩ ⟨0, EOS4⟩] rfl).1,
   (sell_checked engine_par ctx_owner state_ledger 1 ⟨51, GAME4⟩ (by decide)
      (by decide)).2.2.1 (by decide)⟩

/-! The actions, continued: buy, claim, and what transfer does not depend on -/

theorem buy_ignored (E : Engine) (c : Ctx) (s : State) (from_ to_ : account_name)
    (quantity : asset) (memo : List Nat) (h : from_ = c.self ∨ to_ ≠ c.self) :
    buy E c s from_ to_ quantity memo = .ok (s, []) := by
  unfold buy
  rw [if_pos h]
  rfl

/-- What a deposit that `buy` accepts has checked and done. -/
theorem buy_ok (E : Engine) (c : Ctx) (s : State) (from_ to_ : account_name)
    (quantity : asset) (memo : List Nat) (r : State × List Sent)
    (hfrom : from_ ≠ c.self) (hto : to_ = c.self)
    (h : buy E c s from_ to_ quantity memo = .ok r) :
    quantity.symbol = E.CORE_SYMBOL ∧
    ((45 ∈ memo ∧ (memo.take (memo.indexOf 45)).length ≤ 7 ∧
        memo.drop (memo.indexOf 45 + 1) = profit_bytes ∧
        ∃ games, E.game_profit s.games
            (string_to_symbol 0 (memo.take (memo.indexOf 45)) >>> 8) quantity.amount
            = .ok games ∧
          r = ({ s with games := games }, [])) ∨
     (45 ∉ memo ∧ memo.length ≤ 7 ∧
        ∃ stake_quantity games accounts fee,
          E.game_buy s.games (string_to_symbol 0 memo >>> 8) quantity.amount
            = .ok (stake_quantity, games) ∧
          add_balance s.accounts from_ (string_to_symbol 0 memo >>> 8) stake_quantity
            = .ok accounts ∧
          asset.ctor 0 E.CORE_SYMBOL = .ok fee ∧
          r = ({ s with games := games, accounts := accounts },
            [Sent.receipt from_ "buy" quantity stake_quantity fee]))) := by
  unfold buy at h
  have hn : ¬ (from_ = c.self ∨ to_ ≠ c.self) := fun h => h.elim hfrom (fun h => h hto)
  rw [if_neg hn] at h
  simp only [assert_bind_ok, decide_eq_true_eq] at h
  obtain ⟨hcore, h⟩ := h
  refine ⟨hcore, ?_⟩
  by_cases hd : 45 ∈ memo
  · rw [if_pos hd] at h
    simp only [assert_bind_ok, decide_eq_true_eq] at h
    obtain ⟨h1, h2, h⟩ := h
    rw [bind_ok] at h
    obtain ⟨games, hg, h⟩ := h
    simp only [pure, Except.pure, Except.ok.injEq] at h
    exact Or.inl ⟨hd, h1, h2, games, hg, h.symm⟩
  · rw [if_neg hd] at h
    simp only [assert_bind_ok, decide_eq_true_eq] at h
    obtain ⟨h1, h⟩ := h
    rw [bind_ok] at h
    obtain ⟨⟨stake_quantity, games⟩, hg, h⟩ := h
    simp only [] at h
    rw [bind_ok] at h
    obtain ⟨accounts, ha, h⟩ := h
    rw [bind_ok] at h
    obtain ⟨fee, hf, h⟩ := h
    simp only [pure, Except.pure, Except.ok.injEq] at h
    exact Or.inr ⟨hd, h1, stake_quantity, games, accounts, fee, hg, ha, hf, h.symm⟩

/-- C19 (buy ignores what is not a deposit). When `from` is the contract or `to`
is not the contract, `buy` succeeds, leaves every Game, Supply and Balance
record as it was and sends nothing, whatever the quantity and the memo; such
is the payout of every `sell` that succeeds. -/
theorem buy_ignores_non_deposits (E : Engine) (c : Ctx) (s : State) (from_ to_ : account_name)
    (quantity : asset) (memo : List Nat) :
    (from_ = c.self ∨ to_ ≠ c.self →
      buy E c s from_ to_ quantity memo = .ok (s, []) ∧
      succeeds (buy E c s from_ to_ quantity memo) = true ∧
      commit s (buy E c s from_ to_ quantity memo) = s) ∧
    (∀ (seller : account_name) (sold : asset) (s1 : State) (out : List Sent),
      sell E c s seller sold = .ok (s1, out) →
      ∀ sender receiver payout text, Sent.token_transfer sender receiver payout text ∈ out →
        ∀ memo1, buy E c s1 sender receiver payout memo1 = .ok (s1, [])) := by
  constructor
  · intro h
    rw [buy_ignored E c s from_ to_ quantity memo h]
    exact ⟨rfl, rfl, rfl⟩
  · intro seller sold s1 out h sender receiver payout text hm memo1
    obtain ⟨-, player, eos, all, games, accounts, fee, -, -, -, -, -, -, -, -, e⟩ :=
      sell_ok E c s seller sold _ h
    simp only [Prod.mk.injEq] at e
    obtain ⟨-, eo⟩ := e
    subst eo
    simp only [List.mem_cons, Sent.token_transfer.injEq, List.mem_singleton, reduceCtorEq,
      or_false, List.not_mem_nil] at hm
    exact buy_ignored E c s1 sender receiver payout memo1 (Or.inl hm.1)

/-- C14 (issue frame). Whether `issue` succeeds or not, the `accounts` table and
the `games` table are afterwards what they were. A successful `issue` changes
the Supply record of the quantity's symbol only, and of it the amount of
`supply` only: its `max_supply`, its `issuer` and the symbol of its `supply`
stay, as does every other Supply record. -/
theorem issue_frame (c : Ctx) (s : State) (to_ : account_name) (quantity : asset)
    (memo : List Nat) :
    (commit s (issue c s to_ quantity memo)).accounts = s.accounts ∧
    (commit s (issue c s to_ quantity memo)).games = s.games ∧
    (∀ s1 out, issue c s to_ quantity memo = .ok (s1, out) →
      s1.accounts = s.accounts ∧ s1.games = s.games ∧ out = [] ∧
      (∀ scope pk, ¬ (scope = quantity.symbol.name ∧ pk = quantity.symbol.name) →
        Table.find s1.stats scope pk = Table.find s.stats scope pk) ∧
      ∃ st st1, Table.find s.stats quantity.symbol.name quantity.symbol.name = some st ∧
        Table.find s1.stats quantity.symbol.name quantity.symbol.name = some st1 ∧
        st1.max_supply = st.max_supply ∧ st1.issuer = st.issuer ∧
        st1.supply.symbol = st.supply.symbol) := by
  have main : ∀ s1 out, issue c s to_ quantity memo = .ok (s1, out) →
      s1.accounts = s.accounts ∧ s1.games = s.games ∧ out = [] ∧
      (∀ scope pk, ¬ (scope = quantity.symbol.name ∧ pk = quantity.symbol.name) →
        Table.find s1.stats scope pk = Table.find s.stats scope pk) ∧
      ∃ st st1, Table.find s.stats quantity.symbol.name quantity.symbol.name = some st ∧
        Table.find s1.stats quantity.symbol.name quantity.symbol.name = some st1 ∧
        st1.max_supply = st.max_supply ∧ st1.issuer = st.issuer ∧
        st1.supply.symbol = st.supply.symbol := by
    intro s1 out h
    obtain ⟨st, supply, hf, -, -, hs, -, -, e⟩ := issue_ok c s to_ quantity memo _ h
    simp only [Prod.mk.injEq] at e
    obtain ⟨e, eo⟩ := e
    subst e
    obtain ⟨-, e2, -, -⟩ := asset_add_ok _ _ _ hs
    refine ⟨rfl, rfl, eo, fun scope pk hn => find_put_other _ _ _ _ _ _ hn,
      st, { st with supply := supply }, hf, find_put_same _ _ _ _ (by rw [hf]; rfl), rfl, rfl, ?_⟩
    rw [e2]
  refine ⟨?_, ?_, main⟩
  · cases hr : issue c s to_ quantity memo with
    | error e => rfl
    | ok r => exact (main r.1 r.2 hr).1
  · cases hr : issue c s to_ quantity memo with
    | error e => rfl
    | ok r => exact (main r.1 r.2 hr).2.1

theorem issue_of (c : Ctx) (s : State) (to_ : account_name) (quantity : asset)
    (memo : List Nat) (st : currency_stats)
    (h1 : quantity.symbol.is_valid = true) (h2 : memo.length ≤ 256)
    (hf : Table.find s.stats quantity.symbol.name quantity.symbol.name = some st)
    (h3 : c.has_auth st.issuer = true) (h4 : quantity.is_valid = true)
    (h5 : quantity.amount > 0) (h6 : quantity.symbol = st.supply.symbol)
    (h7 : quantity.amount ≤ wrap64 (st.max_supply.amount - st.supply.amount))
    (h8 : -max_amount ≤ st.supply.amount + quantity.amount)
    (h9 : st.supply.amount + quantity.amount ≤ max_amount) :
    issue c s to_ quantity memo = .ok ({ s with
        stats := Table.put s.stats quantity.symbol.name quantity.symbol.name
          ({ st with
              supply := ⟨st.supply.amount + quantity.amount, st.supply.symbol⟩ }) }, []) := by
  have d2 : decide (memo.length ≤ 256) = true := decide_eq_true h2
  have d5 : decide (quantity.amount > 0) = true := decide_eq_true h5
  have d6 : decide (quantity.symbol = st.supply.symbol) = true := decide_eq_true h6
  have d7 : decide (quantity.amount ≤ wrap64 (st.max_supply.amount - st.supply.amount)) = true :=
    decide_eq_true h7
  have ha := asset_add_of st.supply quantity h6 h8 h9
  unfold issue
  simp only [h1, d2, assert_bind_true, hf, require_auth, h3, h4, d5, d6, d7, ha, ok_bind]
  rfl

/-- C15 (bootstrap sequence). After a `create(issuer, M)` that succeeds,
`issue(to, M, memo)` with the issuer's authorization and a memo of at most 256
bytes succeeds and leaves the Supply record with `supply = max_supply = M`; and
where `supply.amount = max_supply.amount`, every `issue` for the symbol fails. -/
theorem bootstrap_sequence (c c1 : Ctx) (s : State) (issuer to_ : account_name)
    (maximum_supply : asset) (memo : List Nat) :
    (∀ s1 out, create c s issuer maximum_supply = .ok (s1, out) →
      c1.has_auth issuer = true → memo.length ≤ 256 →
      ∃ s2 out2, issue c1 s1 to_ maximum_supply memo = .ok (s2, out2) ∧
        ∃ st2, Table.find s2.stats maximum_supply.symbol.name maximum_supply.symbol.name
            = some st2 ∧
          st2.supply = maximum_supply ∧ st2.max_supply = maximum_supply) ∧
    (∀ quantity st,
      Table.find s.stats quantity.symbol.name quantity.symbol.name = some st →
      st.supply.amount = st.max_supply.amount →
      succeeds (issue c1 s to_ quantity memo) = false) := by
  constructor
  · intro s1 out h hauth hmemo
    obtain ⟨-, hv, hpos, hnone, -, e⟩ := create_ok c s issuer maximum_supply _ h
    simp only [Prod.mk.injEq] at e
    obtain ⟨e, -⟩ := e
    have hfind : Table.find s1.stats maximum_supply.symbol.name maximum_supply.symbol.name
        = some ⟨⟨0, maximum_supply.symbol⟩, maximum_supply, issuer⟩ := by
      rw [e]
      show Table.find (s.stats ++ _) _ _ = _
      rw [find_append_single, hnone]
      simp
    have hq := is_valid_range _ hv
    have hsym : maximum_supply.symbol.is_valid = true := by
      unfold asset.is_valid at hv
      simp only [Bool.and_eq_true] at hv
      exact hv.2
    have hw : wrap64 (maximum_supply.amount - 0) = maximum_supply.amount := by
      rw [sub_zero]
      apply wrap64_of_int64
      unfold is_int64
      unfold max_amount at hq
      omega
    have hi := issue_of c1 s1 to_ maximum_supply memo _ hsym hmemo hfind hauth hv hpos rfl
      (by rw [hw]) (by simp only []; omega) (by simp only []; omega)
    refine ⟨_, _, hi, ⟨⟨0 + maximum_supply.amount, maximum_supply.symbol⟩, maximum_supply,
      issuer⟩, find_put_same _ _ _ _ (by rw [hfind]; rfl), ?_, rfl⟩
    simp only [zero_add]
  · intro quantity st hf heq
    cases hr : issue c1 s to_ quantity memo with
    | error e => rfl
    | ok r =>
      obtain ⟨st', supply, hf', -, -, -, hle, hpos, -⟩ := issue_ok c1 s to_ quantity memo _ hr
      rw [hf] at hf'
      cases hf'
      rw [heq, sub_self] at hle
      have : wrap64 0 = 0 := by decide
      rw [this] at hle
      omega

/-- C17 (consume). `consume` fails when the holder has no record for the
symbol, when the quantity's amount is not positive or exceeds the holder's
balance, and when the quantity's symbol differs from the record's. A `consume`
that succeeds has run `game_consume` on the symbol name and the quantity's
amount, lowers the holder's balance by exactly that amount, changes no other
record of the `accounts` table nor any Supply record, and sends nothing. -/
theorem consume_checked (E : Engine) (c : Ctx) (s : State) (from_ : account_name)
    (quantity : asset) (memo : List Nat)
    (hwf : Table.wf s.accounts) (hty : accounts_int64 s.accounts) :
    (Table.find s.accounts from_ quantity.symbol.name = none →
      succeeds (consume E c s from_ quantity memo) = false) ∧
    (quantity.amount ≤ 0 → succeeds (consume E c s from_ quantity memo) = false) ∧
    (quantity.amount > balance_of s from_ quantity.symbol.name →
      succeeds (consume E c s from_ quantity memo) = false) ∧
    (∀ a, Table.find s.accounts from_ quantity.symbol.name = some a →
      quantity.symbol ≠ a.balance.symbol →
      succeeds (consume E c s from_ quantity memo) = false) ∧
    (∀ s1 out, consume E c s from_ quantity memo = .ok (s1, out) →
      E.game_consume s.games quantity.symbol.name quantity.amount = .ok s1.games ∧
      balance_of s1 from_ quantity.symbol.name
        = balance_of s from_ quantity.symbol.name - quantity.amount ∧
      (∀ holder name, ¬ (holder = from_ ∧ name = quantity.symbol.name) →
        Table.find s1.accounts holder name = Table.find s.accounts holder name) ∧
      s1.stats = s.stats ∧ out = []) := by
  have fails : ∀ (P : Prop), (∀ r, consume E c s from_ quantity memo = .ok r → ¬ P) → P →
      succeeds (consume E c s from_ quantity memo) = false := by
    intro P hP p
    cases hr : consume E c s from_ quantity memo with
    | error e => rfl
    | ok r => exact absurd p (hP r hr)
  refine ⟨?_, ?_, ?_, ?_, ?_⟩
  · refine fails _ ?_
    intro r hr hnone
    obtain ⟨-, player, -, -, hf, -⟩ := consume_ok E c s from_ quantity memo r hr
    rw [hf] at hnone
    cases hnone
  · refine fails _ ?_
    intro r hr hle
    obtain ⟨-, player, -, -, -, -, hpos, -⟩ := consume_ok E c s from_ quantity memo r hr
    omega
  · refine fails _ ?_
    intro r hr hgt
    obtain ⟨-, player, -, -, hf, -, -, hle, -⟩ := consume_ok E c s from_ quantity memo r hr
    simp only [balance_of, hf] at hgt
    omega
  · intro a ha hne
    refine fails _ ?_ hne
    intro r hr hne
    obtain ⟨-, player, -, -, hf, hs, -⟩ := consume_ok E c s from_ quantity memo r hr
    rw [ha] at hf
    cases hf
    exact hne hs
  · intro s1 out h
    obtain ⟨-, player, games, accounts, hf, -, hpos, hle, hg, ha, e⟩ :=
      consume_ok E c s from_ quantity memo _ h
    simp only [Prod.mk.injEq] at e
    obtain ⟨e, eo⟩ := e
    subst e
    have hint := find_int64 _ _ _ _ hty hf
    refine ⟨hg, ?_, ?_, rfl, eo⟩
    · have := sub_balance_find_same _ _ _ _ _ _ hwf hf hint hpos hle ha
      simp only [balance_of, this, hf]
      split_ifs with hz
      · simp only []; omega
      · rfl
    · intro holder name hn
      exact sub_balance_find_other _ _ _ _ _ _ hint hpos hle ha _ _ hn

/-- C18 (profit routing of buy). A deposit (`from` is not the contract, `to` is)
whose memo contains `-` is accepted only if the text before the first `-` has
at most 7 bytes and the text after it is exactly `profit`; then `game_profit`
has run on the symbol name decoded from the prefix and the quantity's amount,
`game_buy` has no part in the result, and the `accounts` and `stats` tables
are as they were, nothing being sent. With any other text after the first `-`
the deposit is refused. And a deposit in the reserve symbol with such a memo is
routed: `buy` is the run of `game_profit`, succeeding with the Game records it
returns when it succeeds, and failing when it fails. -/
theorem buy_profit_route (E : Engine) (c : Ctx) (s : State) (from_ to_ : account_name)
    (quantity : asset) (memo : List Nat)
    (hfrom : from_ ≠ c.self) (hto : to_ = c.self) (hdash : 45 ∈ memo) :
    (∀ s1 out, buy E c s from_ to_ quantity memo = .ok (s1, out) →
      quantity.symbol = E.CORE_SYMBOL ∧
      (memo.take (memo.indexOf 45)).length ≤ 7 ∧
      memo.drop (memo.indexOf 45 + 1) = profit_bytes ∧
      E.game_profit s.games (string_to_symbol 0 (memo.take (memo.indexOf 45)) >>> 8)
        quantity.amount = .ok s1.games ∧
      s1.accounts = s.accounts ∧ s1.stats = s.stats ∧ out = []) ∧
    (∀ g, buy { E with game_buy := g } c s from_ to_ quantity memo
      = buy E c s from_ to_ quantity memo) ∧
    (memo.drop (memo.indexOf 45 + 1) ≠ profit_bytes →
      succeeds (buy E c s from_ to_ quantity memo) = false) ∧
    (quantity.symbol = E.CORE_SYMBOL →
      (memo.take (memo.indexOf 45)).length ≤ 7 →
      memo.drop (memo.indexOf 45 + 1) = profit_bytes →
      buy E c s from_ to_ quantity memo
        = (E.game_profit s.games (string_to_symbol 0 (memo.take (memo.indexOf 45)) >>> 8)
            quantity.amount >>= fun games => pure ({ s with games := games }, [])) ∧
      ∀ games,
        E.game_profit s.games (string_to_symbol 0 (memo.take (memo.indexOf 45)) >>> 8)
          quantity.amount = .ok games →
        buy E c s from_ to_ quantity memo = .ok ({ s with games := games }, [])) := by
  have main : ∀ r, buy E c s from_ to_ quantity memo = .ok r →
      quantity.symbol = E.CORE_SYMBOL ∧
      (memo.take (memo.indexOf 45)).length ≤ 7 ∧
      memo.drop (memo.indexOf 45 + 1) = profit_bytes ∧
      E.game_profit s.games (string_to_symbol 0 (memo.take (memo.indexOf 45)) >>> 8)
        quantity.amount = .ok r.1.games ∧
      r.1.accounts = s.accounts ∧ r.1.stats = s.stats ∧ r.2 = [] := by
    intro r h
    obtain ⟨hcore, hcase⟩ := buy_ok E c s from_ to_ quantity memo r hfrom hto h
    rcases hcase with ⟨-, h1, h2, games, hg, e⟩ | ⟨hn, -⟩
    · subst e
      exact ⟨hcore, h1, h2, hg, rfl, rfl, rfl⟩
    · exact absurd hdash hn
  have hn : ¬ (from_ = c.self ∨ to_ ≠ c.self) := fun h => h.elim hfrom (fun h => h hto)
  refine ⟨fun s1 out h => main _ h, ?_, ?_, ?_⟩
  · intro g
    unfold buy
    simp only [if_neg hn, if_pos hdash]
  · intro hne
    cases hr : buy E c s from_ to_ quantity memo with
    | error e => rfl
    | ok r => exact absurd (main r hr).2.2.1 hne
  · intro h1 h2 h3
    have d1 : decide (quantity.symbol = E.CORE_SYMBOL) = true := decide_eq_true h1
    have d2 : decide ((memo.take (memo.indexOf 45)).length ≤ 7) = true := decide_eq_true h2
    have d3 : decide (memo.drop (memo.indexOf 45 + 1) = profit_bytes) = true :=
      decide_eq_true h3
    have hrun : buy E c s from_ to_ quantity memo
        = (E.game_profit s.games (string_to_symbol 0 (memo.take (memo.indexOf 45)) >>> 8)
            quantity.amount >>= fun games => pure ({ s with games := games }, [])) := by
      unfold buy
      simp only [if_neg hn, if_pos hdash, d1, d2, d3, assert_bind_true]
    refine ⟨hrun, ?_⟩
    intro games hg
    rw [hrun, hg]
    rfl

/-- C11 (buy credit). For a deposit (`from` is not the contract, `to` is) with a
memo without `-`, where `game_buy` answers with an asset of the symbol name it
was asked for and within the range of assets: a `buy` that succeeds leaves
`from` with its former balance for that symbol (0 without a record) plus
exactly the amount `game_buy` returned, the record holding the returned asset
when there was none, and changes no other record of the `accounts` table. -/
theorem buy_credit (E : Engine) (c : Ctx) (s s1 : State) (from_ to_ : account_name)
    (quantity : asset) (memo : List Nat) (out : List Sent)
    (hfrom : from_ ≠ c.self) (hto : to_ = c.self) (hdash : 45 ∉ memo)
    (hty : accounts_int64 s.accounts)
    (hE : ∀ q games,
      E.game_buy s.games (string_to_symbol 0 memo >>> 8) quantity.amount = .ok (q, games) →
      q.symbol.name = string_to_symbol 0 memo >>> 8 ∧
        -max_amount ≤ q.amount ∧ q.amount ≤ max_amount)
    (h : buy E c s from_ to_ quantity memo = .ok (s1, out)) :
    memo.length ≤ 7 ∧ quantity.symbol = E.CORE_SYMBOL ∧
    ∃ stake_quantity games,
      E.game_buy s.games (string_to_symbol 0 memo >>> 8) quantity.amount
        = .ok (stake_quantity, games) ∧
      balance_of s1 from_ (string_to_symbol 0 memo >>> 8)
        = balance_of s from_ (string_to_symbol 0 memo >>> 8) + stake_quantity.amount ∧
      (Table.find s.accounts from_ (string_to_symbol 0 memo >>> 8) = none →
        Table.find s1.accounts from_ (string_to_symbol 0 memo >>> 8)
          = some ⟨stake_quantity⟩) ∧
      (∀ holder name, ¬ (holder = from_ ∧ name = string_to_symbol 0 memo >>> 8) →
        Table.find s1.accounts holder name = Table.find s.accounts holder name) := by
  obtain ⟨hcore, hcase⟩ := buy_ok E c s from_ to_ quantity memo _ hfrom hto h
  rcases hcase with ⟨hd, -⟩ | ⟨-, hlen, stake, games, accounts, fee, hg, ha, -, e⟩
  · exact absurd hd hdash
  · simp only [Prod.mk.injEq] at e
    obtain ⟨e, -⟩ := e
    subst e
    obtain ⟨hname, hq⟩ := hE stake games hg
    rw [← hname] at ha ⊢
    have hsame := add_balance_find_same _ _ _ _ hty hq ha
    refine ⟨hlen, hcore, stake, games, hname ▸ hg, ?_, ?_, ?_⟩
    · simp only [balance_of, hsame]
      cases Table.find s.accounts from_ stake.symbol.name with
      | none => simp
      | some a => simp
    · intro hnone
      simp only [hsame, hnone]
    · intro holder name hn
      exact add_balance_find_other _ _ _ _ ha _ _ hn

theorem claim_ok (E : Engine) (c : Ctx) (s : State) (name_str : List Nat) (sell_flag : Bool)
    (r : State × List Sent) (h : claim E c s name_str sell_flag = .ok r) :
    ∃ game stake_quantity games accounts,
      Table.find s.games (E._string_to_symbol_name name_str) N_games = some game ∧
      c.has_auth game.owner = true ∧
      E.game_claim s.games (E._string_to_symbol_name name_str) = .ok (stake_quantity, games) ∧
      add_balance s.accounts game.owner (E._string_to_symbol_name name_str) stake_quantity
        = .ok accounts ∧
      ((sell_flag = false ∧ r = ({ s with games := games, accounts := accounts }, [])) ∨
       (sell_flag = true ∧ ∃ player,
          Table.find accounts game.owner (E._string_to_symbol_name name_str) = some player ∧
          sell E c { s with games := games, accounts := accounts } game.owner player.balance
            = .ok r)) := by
  unfold claim at h
  rw [bind_ok] at h
  obtain ⟨game, hg, h⟩ := h
  rw [games_get_ok] at hg
  simp only [require_auth, assert_bind_ok] at h
  obtain ⟨hauth, h⟩ := h
  rw [bind_ok] at h
  obtain ⟨⟨stake, games⟩, hc, h⟩ := h
  simp only [] at h
  rw [bind_ok] at h
  obtain ⟨accounts, ha, h⟩ := h
  refine ⟨game, stake, games, accounts, hg, hauth, hc, ha, ?_⟩
  cases sell_flag with
  | false =>
    simp only [Bool.false_eq_true, if_false, pure, Except.pure, Except.ok.injEq] at h
    exact Or.inl ⟨rfl, h.symm⟩
  | true =>
    simp only [if_true] at h
    cases hf : Table.find accounts game.owner (E._string_to_symbol_name name_str) with
    | none => simp [hf, throw, throwThe, MonadExceptOf.throw] at h
    | some player =>
      simp only [hf] at h
      exact Or.inr ⟨rfl, player, rfl, h⟩

/-- After a credit: the table is still well formed. -/
theorem add_balance_wf (t t1 : Table account) (owner : account_name) (key : symbol_name)
    (quantity : asset) (hwf : Table.wf t)
    (h : add_balance t owner key quantity = .ok t1) : Table.wf t1 := by
  rcases add_balance_ok _ _ _ _ _ h with ⟨-, h1, e⟩ | ⟨a, -, -, -, -, e⟩
  · rw [e]
    exact wf_append_single _ _ _ _ hwf h1
  · rw [e]
    exact wf_put _ _ _ _ hwf

/-- The owner's record right after the credit that `claim` makes. -/
theorem claim_credit (t t1 : Table account) (owner : account_name) (name : symbol_name)
    (stake : asset) (player : account) (hty : accounts_int64 t)
    (hname : stake.symbol.name = name)
    (hq : -max_amount ≤ stake.amount ∧ stake.amount ≤ max_amount)
    (ha : add_balance t owner name stake = .ok t1)
    (hp : Table.find t1 owner name = some player) :
    player.balance.symbol.name = name ∧
    -max_amount ≤ player.balance.amount ∧ player.balance.amount ≤ max_amount ∧
    player.balance.amount
      = (match Table.find t owner name with
          | none => 0
          | some a => a.balance.amount) + stake.amount := by
  subst hname
  rcases add_balance_ok _ _ _ _ _ ha with ⟨h1, -, e⟩ | ⟨a, h1, h2, h3, h4, e⟩
  · rw [e, find_append_single, h1] at hp
    simp only [and_self, if_true, Option.some.injEq] at hp
    subst hp
    rw [h1]
    exact ⟨rfl, hq.1, hq.2, by simp⟩
  · rw [e, find_put_same _ _ _ _ (by rw [h1]; rfl)] at hp
    have hx := wrap64_add_exact _ _ (find_int64 _ _ _ _ hty h1) hq ⟨h3, h4⟩
    simp only [Option.some.injEq] at hp
    subst hp
    rw [h1]
    refine ⟨by rw [h2], h3, h4, hx⟩

/-- C12, amended (claim with the sell flag). Where `game_claim` answers with an
asset of the symbol name it was asked for and within the range of assets: a
`claim` without the sell flag that succeeds raises the owner's balance by
exactly the amount `game_claim` returned; a `claim` with the sell flag that
succeeds sells the owner's whole balance, what was held before plus what was
released, and leaves the owner without a record for the symbol. -/
theorem claim_sell_flag (E : Engine) (c : Ctx) (s s1 : State) (name_str : List Nat)
    (out : List Sent) (game : st_game)
    (hg : Table.find s.games (E._string_to_symbol_name name_str) N_games = some game)
    (hwf : Table.wf s.accounts) (hty : accounts_int64 s.accounts)
    (hE : ∀ q games, E.game_claim s.games (E._string_to_symbol_name name_str) = .ok (q, games) →
      q.symbol.name = E._string_to_symbol_name name_str ∧
        -max_amount ≤ q.amount ∧ q.amount ≤ max_amount) :
    (claim E c s name_str false = .ok (s1, out) →
      ∃ stake_quantity games,
        E.game_claim s.games (E._string_to_symbol_name name_str) = .ok (stake_quantity, games) ∧
        balance_of s1 game.owner (E._string_to_symbol_name name_str)
          = balance_of s game.owner (E._string_to_symbol_name name_str)
            + stake_quantity.amount ∧
        out = []) ∧
    (claim E c s name_str true = .ok (s1, out) →
      ∃ stake_quantity games,
        E.game_claim s.games (E._string_to_symbol_name name_str) = .ok (stake_quantity, games) ∧
        Table.find s1.accounts game.owner (E._string_to_symbol_name name_str) = none ∧
        balance_of s1 game.owner (E._string_to_symbol_name name_str) = 0 ∧
        ∃ sold eos_quantity all_quantity fee,
          sold.amount = balance_of s game.owner (E._string_to_symbol_name name_str)
            + stake_quantity.amount ∧
          out = [Sent.token_transfer c.self game.owner eos_quantity
                  "tokendapppub withdraw https://dapp.pub",
                 Sent.receipt game.owner "sell" sold all_quantity fee]) := by
  constructor
  · intro h
    obtain ⟨game', stake, games, accounts, hg', -, hc, ha, hcase⟩ := claim_ok E c s name_str _ _ h
    rw [hg] at hg'
    cases hg'
    rcases hcase with ⟨-, e⟩ | ⟨hf, -⟩
    · simp only [Prod.mk.injEq] at e
      obtain ⟨e, eo⟩ := e
      subst e
      obtain ⟨hname, hq⟩ := hE stake games hc
      refine ⟨stake, games, hc, ?_, eo⟩
      rw [← hname] at ha ⊢
      have hsame := add_balance_find_same _ _ _ _ hty hq ha
      simp only [balance_of, hsame]
      cases Table.find s.accounts game.owner stake.symbol.name with
      | none => simp
      | some a => simp
    · cases hf
  · intro h
    obtain ⟨game', stake, games, accounts, hg', -, hc, ha, hcase⟩ := claim_ok E c s name_str _ _ h
    rw [hg] at hg'
    cases hg'
    rcases hcase with ⟨hf, -⟩ | ⟨-, player, hp, hs⟩
    · cases hf
    · obtain ⟨hname, hq⟩ := hE stake games hc
      obtain ⟨hpn, hp1, hp2, hpa⟩ := claim_credit _ _ _ _ _ player hty hname hq ha hp
      obtain ⟨-, player', eos, all, games', accounts', fee, hf', -, hpos, hle, -, -, hsub, -, e⟩ :=
        sell_ok E c _ game.owner player.balance _ hs
      rw [hpn] at hf' hsub
      simp only [] at hf' hsub
      rw [hp] at hf'
      cases hf'
      simp only [Prod.mk.injEq] at e
      obtain ⟨e, eo⟩ := e
      subst e
      have hint : is_int64 player.balance.amount := by
        unfold is_int64
        unfold max_amount at hp1 hp2
        omega
      have hfind := sub_balance_find_same _ _ _ _ _ _ (add_balance_wf _ _ _ _ _ hwf ha) hp hint
        hpos hle hsub
      rw [if_pos (sub_self _)] at hfind
      refine ⟨stake, games, hc, hfind, ?_, player.balance, eos, all, fee, ?_, eo⟩
      · simp only [balance_of, hfind]
      · rw [hpa]
        rfl

/-- C12 as stated fails: the owner, account 1, holds `50 GAME`; a claim with the
sell flag releases 10, sells 60, and leaves the owner with nothing instead of
the 50 held before. -/
theorem claim_sells_everything_counterexample :
    claim engine_vest ctx_owner state_ledger GAME_str true
      = .ok (state_claimed_sold,
          [Sent.token_transfer 100 1 ⟨60, EOS4⟩ "tokendapppub withdraw https://dapp.pub",
           Sent.receipt 1 "sell" ⟨60, GAME4⟩ ⟨60, EOS4⟩ ⟨0, EOS4⟩]) ∧
    engine_vest.game_claim state_ledger.games GAME = .ok (⟨10, GAME4⟩, state_ledger.games) ∧
    balance_of state_ledger 1 GAME = 50 ∧
    balance_of state_claimed_sold 1 GAME = 0 :=
  ⟨rfl, rfl, by decide, by decide⟩

theorem emitted_of_fails (r : Result) (h : succeeds r = false) : emitted r = [] := by
  cases r with
  | error e => rfl
  | ok a => cases h

/-- C13, amended (receipts). A deposit (`from` is not the contract, `to` is)
with a memo without `-` that `buy` accepts sends exactly one thing, the receipt
`(from, "buy", the quantity paid, the asset game_buy returned, 0 of the reserve
symbol)`. A `sell` that succeeds sends the payout and exactly one receipt,
`(from, "sell", the quantity sold, the gross asset game_sell returned, gross
minus net)`. Nothing is sent by a deposit on the profit route, by a `buy` that
is not a deposit (`from` is the contract or `to` is not), or by a `buy` or
`sell` that fails. -/
theorem receipt_emission (E : Engine) (c : Ctx) (s : State) (from_ to_ : account_name)
    (quantity : asset) (memo : List Nat) :
    (from_ ≠ c.self → to_ = c.self → 45 ∉ memo →
      ∀ s1 out, buy E c s from_ to_ quantity memo = .ok (s1, out) →
        ∃ stake_quantity games,
          E.game_buy s.games (string_to_symbol 0 memo >>> 8) quantity.amount
            = .ok (stake_quantity, games) ∧
          out = [Sent.receipt from_ "buy" quantity stake_quantity ⟨0, E.CORE_SYMBOL⟩]) ∧
    (∀ s1 out, sell E c s from_ quantity = .ok (s1, out) →
      ∃ eos_quantity all_quantity games fee,
        E.game_sell s.games quantity.symbol.name quantity.amount
          = .ok ((eos_quantity, all_quantity), games) ∧
        fee = ⟨wrap64 (all_quantity.amount - eos_quantity.amount), all_quantity.symbol⟩ ∧
        out = [Sent.token_transfer c.self from_ eos_quantity
                "tokendapppub withdraw https://dapp.pub",
               Sent.receipt from_ "sell" quantity all_quantity fee] ∧
        (out.filter Sent.is_receipt).length = 1) ∧
    (from_ ≠ c.self → to_ = c.self → 45 ∈ memo →
      emitted (buy E c s from_ to_ quantity memo) = []) ∧
    (from_ = c.self ∨ to_ ≠ c.self → emitted (buy E c s from_ to_ quantity memo) = []) ∧
    (succeeds (buy E c s from_ to_ quantity memo) = false →
      emitted (buy E c s from_ to_ quantity memo) = []) ∧
    (succeeds (sell E c s from_ quantity) = false →
      emitted (sell E c s from_ quantity) = []) := by
  refine ⟨?_, ?_, ?_, ?_, emitted_of_fails _, emitted_of_fails _⟩
  · intro hfrom hto hdash s1 out h
    obtain ⟨-, hcase⟩ := buy_ok E c s from_ to_ quantity memo _ hfrom hto h
    rcases hcase with ⟨hd, -⟩ | ⟨-, -, stake, games, accounts, fee, hg, -, hf, e⟩
    · exact absurd hd hdash
    · rw [asset_ctor_zero_ok] at hf
      simp only [Prod.mk.injEq] at e
      exact ⟨stake, games, hg, by rw [e.2, hf.2]⟩
  · intro s1 out h
    obtain ⟨-, player, eos, all, games, accounts, fee, -, -, -, -, hg, -, -, hfee, e⟩ :=
      sell_ok E c s from_ quantity _ h
    obtain ⟨-, e2, -, -⟩ := asset_sub_ok _ _ _ hfee
    simp only [Prod.mk.injEq] at e
    refine ⟨eos, all, games, fee, hg, e2, e.2, ?_⟩
    rw [e.2]
    rfl
  · intro hfrom hto hdash
    cases hr : buy E c s from_ to_ quantity memo with
    | error e => rfl
    | ok r =>
      obtain ⟨-, hcase⟩ := buy_ok E c s from_ to_ quantity memo _ hfrom hto hr
      rcases hcase with ⟨-, -, -, games, -, e⟩ | ⟨hn, -⟩
      · rw [e]
        rfl
      · exact absurd hdash hn
  · intro h
    rw [buy_ignored E c s from_ to_ quantity memo h]
    rfl

/-- C13 as stated fails: the payout of a `sell` reaches `buy` with the contract
(account 100) as `from`; that `buy` succeeds, is not on the profit route, and
sends no receipt. -/
theorem buy_without_receipt_counterexample :
    buy engine_par ctx_owner state_issued 100 1 ⟨50, EOS4⟩ GAME_str = .ok (state_issued, []) ∧
    succeeds (buy engine_par ctx_owner state_issued 100 1 ⟨50, EOS4⟩ GAME_str) = true ∧
    45 ∉ GAME_str ∧
    (emitted (buy engine_par ctx_owner state_issued 100 1 ⟨50, EOS4⟩ GAME_str)).filter
      Sent.is_receipt = [] :=
  ⟨rfl, rfl, by decide, rfl⟩

/-- The buy credit at work: account 1 pays `50 EOS` with memo `GAME` and holds
`50 GAME` afterwards. -/
theorem buy_credit_witness :
    balance_of state_bought 1 (string_to_symbol 0 GAME_str >>> 8)
      = balance_of state_issued 1 (string_to_symbol 0 GAME_str >>> 8) + 50 := by
  obtain ⟨-, -, stake, games, hg, hb, -, -⟩ :=
    buy_credit engine_par ctx_owner state_issued state_bought 1 100 ⟨50, EOS4⟩ GAME_str
      [Sent.receipt 1 "buy" ⟨50, EOS4⟩ ⟨50, GAME4⟩ ⟨0, EOS4⟩]
      (by decide) (by decide) (by decide) (by decide)
      (fun q games hq => by
        cases hq
        decide)
      rfl
  cases hg
  exact hb

/-- The claim at work: releasing 10 `GAME` to the owner, account 1, who held 50,
without the sell flag and with it. -/
theorem claim_sell_flag_witness :
    balance_of state_claimed 1 (engine_vest._string_to_symbol_name GAME_str)
      = balance_of state_ledger 1 (engine_vest._string_to_symbol_name GAME_str) + 10 ∧
    Table.find state_claimed_sold.accounts 1 (engine_vest._string_to_symbol_name GAME_str)
      = none := by
  constructor
  · obtain ⟨stake, games, hg, hb, -⟩ :=
      (claim_sell_flag engine_vest ctx_owner state_ledger state_claimed GAME_str [] game_GAME
        (by decide) (by decide) (by decide)
        (fun q games hq => by
          cases hq
          decide)).1 rfl
    cases hg
    exact hb
  · obtain ⟨_, _, _, hnone, _⟩ :=
      (claim_sell_flag engine_vest ctx_owner state_ledger state_claimed_sold GAME_str
        [Sent.token_transfer 100 1 ⟨60, EOS4⟩ "tokendapppub withdraw https://dapp.pub",
         Sent.receipt 1 "sell" ⟨60, GAME4⟩ ⟨60, EOS4⟩ ⟨0, EOS4⟩] game_GAME
        (by decide) (by decide) (by decide)
        (fun q games hq => by
          cases hq
          decide)).2 rfl
    exact hnone

/-- The receipts at work: the one receipt of a buy of `50 GAME`, and nothing sent
by a deposit on the profit route. -/
theorem receipt_emission_witness :
    (∃ stake_quantity games,
      engine_par.game_buy state_issued.games (string_to_symbol 0 GAME_str >>> 8) 50
        = .ok (stake_quantity, games) ∧
      [Sent.receipt 1 "buy" ⟨50, EOS4⟩ ⟨50, GAME4⟩ ⟨0, EOS4⟩]
        = [Sent.receipt 1 "buy" ⟨50, EOS4⟩ stake_quantity ⟨0, engine_par.CORE_SYMBOL⟩]) ∧
    emitted (buy engine_par ctx_owner state_issued 1 100 ⟨50, EOS4⟩ GAME_profit_str) = [] :=
  ⟨(receipt_emission engine_par ctx_owner state_issued 1 100 ⟨50, EOS4⟩ GAME_str).1
      (by decide) (by decide) (by decide) state_bought _ rfl,
   (receipt_emission engine_par ctx_owner state_issued 1 100 ⟨50, EOS4⟩ GAME_profit_str).2.2.1
      (by decide) (by decide) (by decide)⟩

/-- The issue frame at work: issuing all of `1000000 GAME` leaves the balances
and the Game as they were. -/
theorem issue_frame_witness :
    state_issued.accounts = state_created.accounts ∧ state_issued.games = state_created.games :=
  have h := (issue_frame ctx_owner state_created 1 ⟨1000000, GAME4⟩ []).2.2 state_issued [] rfl
  ⟨h.1, h.2.1⟩

/-- The bootstrap at work: `create` then `issue` of `1000000 GAME`, and a
further `issue` refused. -/
theorem bootstrap_sequence_witness :
    (∃ s2 out2, issue ctx_owner state_created 1 ⟨1000000, GAME4⟩ [] = .ok (s2, out2) ∧
      ∃ st2, Table.find s2.stats GAME4.name GAME4.name = some st2 ∧
        st2.supply = ⟨1000000, GAME4⟩ ∧ st2.max_supply = ⟨1000000, GAME4⟩) ∧
    succeeds (issue ctx_owner state_issued 1 ⟨1, GAME4⟩ []) = false :=
  ⟨(bootstrap_sequence ctx_owner ctx_owner state_game_only 1 1 ⟨1000000, GAME4⟩ []).1
      state_created [] rfl (by decide) (by decide),
   (bootstrap_sequence ctx_owner ctx_owner state_issued 1 1 ⟨1000000, GAME4⟩ []).2
      ⟨1, GAME4⟩ stats_issued (by decide) (by decide)⟩

/-- The consume checks at work: account 1 consumes its 50 `GAME`, and cannot
consume 51. -/
theorem consume_checked_witness :
    balance_of state_drained 1 GAME4.name = balance_of state_ledger 1 GAME4.name - 50 ∧
    succeeds (consume engine_par ctx_owner state_ledger 1 ⟨51, GAME4⟩ []) = false :=
  ⟨((consume_checked engine_par ctx_owner state_ledger 1 ⟨50, GAME4⟩ [] (by decide)
      (by decide)).2.2.2.2 state_drained [] rfl).2.1,
   (consume_checked engine_par ctx_owner state_ledger 1 ⟨51, GAME4⟩ [] (by decide)
      (by decide)).2.2.1 (by decide)⟩

/-- The profit route at work: a deposit with memo `GAME-profit` is routed to
`game_profit` and succeeds with it; `A-B-profit` and `A-` are refused. -/
theorem buy_profit_route_witness :
    buy engine_par ctx_owner state_issued 1 100 ⟨50, EOS4⟩ GAME_profit_str
      = .ok (state_issued, []) ∧
    engine_par.game_profit state_issued.games
      (string_to_symbol 0 (GAME_profit_str.take (GAME_profit_str.indexOf 45)) >>> 8) 50
      = .ok state_issued.games ∧
    succeeds (buy engine_par ctx_owner state_issued 1 100 ⟨50, EOS4⟩ A_B_profit_str) = false ∧
    succeeds (buy engine_par ctx_owner state_issued 1 100 ⟨50, EOS4⟩ A_dash_str) = false :=
  have t := buy_profit_route engine_par ctx_owner state_issued 1 100 ⟨50, EOS4⟩ GAME_profit_str
    (by decide) (by decide) (by decide)
  have hrun : buy engine_par ctx_owner state_issued 1 100 ⟨50, EOS4⟩ GAME_profit_str
      = .ok (state_issued, []) :=
    (t.2.2.2 (by decide) (by decide) (by decide)).2 state_issued.games rfl
  ⟨hrun, (t.1 state_issued [] hrun).2.2.2.1,
   (buy_profit_route engine_par ctx_owner state_issued 1 100 ⟨50, EOS4⟩ A_B_profit_str
      (by decide) (by decide) (by decide)).2.2.1 (by decide),
   (buy_profit_route engine_par ctx_owner state_issued 1 100 ⟨50, EOS4⟩ A_dash_str
      (by decide) (by decide) (by decide)).2.2.1 (by decide)⟩

/-- The ignored buys at work: a transfer between two other accounts, and the
payout of a sale, leave the database as it is. -/
theorem buy_ignores_non_deposits_witness :
    buy engine_par ctx_owner state_ledger 1 2 ⟨50, EOS4⟩ GAME_str = .ok (state_ledger, []) ∧
    buy engine_par ctx_owner state_drained 100 1 ⟨50, EOS4⟩ [] = .ok (state_drained, []) :=
  ⟨((buy_ignores_non_deposits engine_par ctx_owner state_ledger 1 2 ⟨50, EOS4⟩ GAME_str).1
      (Or.inr (by decide))).1,
   (buy_ignores_non_deposits engine_par ctx_owner state_ledger 1 2 ⟨50, EOS4⟩ GAME_str).2
      1 ⟨50, GAME4⟩ state_drained
      [Sent.token_transfer 100 1 ⟨50, EOS4⟩ "tokendapppub withdraw https://dapp.pub",
       Sent.receipt 1 "sell" ⟨50, GAME4⟩ ⟨50, EOS4⟩ ⟨0, EOS4⟩] rfl
      100 1 ⟨50, EOS4⟩ "tokendapppub withdraw https://dapp.pub" (by decide) []⟩

end tokendapppub
